import Mathlib

/-! # Verification of the arithmetic-parser repository

Shallow embedding of `src/operation.rs` and `src/parser.rs` (a state-machine
scanner with recursive descent for groups, over checked `usize` arithmetic),
together with proofs settling the frozen claims about the program.

Machine integers (`usize`, 64-bit target) are modelled as `Nat` with an
explicit bound `USIZE_MAX`; fallible operations return `Except`.  The
mutable shared cursor (`Peekable<Chars>`) is modelled by passing the list of
remaining characters in and out of every call; the recursion of
`parse_internal` is driven by a fuel parameter that is initialised to
`length + 1` and decremented on every recursive call (each recursive call
receives a strictly shorter character list, so this fuel is never
exhausted on any reachable path).
-/

namespace ArithParser

/-! ## `src/operation.rs` : operation codes -/

/-- Operation code for addition (`codes::OPCODE_ADD`). -/
def OPCODE_ADD : Char := 'a'
/-- Operation code for subtraction (`codes::OPCODE_SUB`). -/
def OPCODE_SUB : Char := 'b'
/-- Operation code for multiplication (`codes::OPCODE_MUL`). -/
def OPCODE_MUL : Char := 'c'
/-- Operation code for division (`codes::OPCODE_DIV`). -/
def OPCODE_DIV : Char := 'd'
/-- Operation code for open parenthesis (`codes::OPCODE_OPEN`). -/
def OPCODE_OPEN : Char := 'e'
/-- Operation code for closed parenthesis (`codes::OPCODE_CLOSE`). -/
def OPCODE_CLOSE : Char := 'f'

/-- Largest value of the target integer type (`usize` on the 64-bit target). -/
def USIZE_MAX : Nat := 2 ^ 64 - 1

/-- Numeric value of a list of decimal digit characters (most significant first). -/
def digitsToNat (l : List Char) : Nat :=
  l.foldl (fun n c => 10 * n + (c.toNat - 48)) 0

/-- Models Rust's `str::parse::<usize>()` as used by the parser.  The parser
only ever passes non-empty all-digit strings (the accumulator), for which
`parse` succeeds exactly when the value fits in `usize` and otherwise fails
with the message `"number too large to fit in target type"`; the other two
error messages cover the remaining (never reached from the parser) inputs. -/
def parseUsize (s : List Char) : Except String Nat :=
  if s = [] then .error "cannot parse integer from empty string"
  else if s.all Char.isDigit then
    if digitsToNat s ≤ USIZE_MAX then .ok (digitsToNat s)
    else .error "number too large to fit in target type"
  else .error "invalid digit found in string"

/-! ## `src/operation.rs` : `OperationError` and `Operation` -/

/-- Errors that the `Operation` instantiation and application can cause. -/
inductive OperationError where
  /-- The first operand is invalid (text, error message). -/
  | InvalidFirstOperand (text msg : String)
  /-- The second operand is invalid (text, error message). -/
  | InvalidSecondOperand (text msg : String)
  /-- The operation code is invalid (invalid code). -/
  | InvalidOperationCode (code : Char)
  /-- The operation application overflows. -/
  | OverflowError
deriving DecidableEq, Repr

/-- Enumeration of all possible arithmetical operations, each carrying its
resolved first operand. -/
inductive Operation where
  | Add (first : Nat)
  | Sub (first : Nat)
  | Mul (first : Nat)
  | Div (first : Nat)
deriving DecidableEq, Repr

/-- `usize::checked_add`. -/
def checkedAdd (a b : Nat) : Option Nat :=
  if a + b ≤ USIZE_MAX then some (a + b) else none

/-- `usize::checked_sub` (fails when the result would go below zero). -/
def checkedSub (a b : Nat) : Option Nat :=
  if b ≤ a then some (a - b) else none

/-- `usize::checked_mul`. -/
def checkedMul (a b : Nat) : Option Nat :=
  if a * b ≤ USIZE_MAX then some (a * b) else none

/-- `usize::checked_div` (fails exactly on division by zero; `Nat` division
truncates, which on non-negative values is truncation toward zero). -/
def checkedDiv (a b : Nat) : Option Nat :=
  if b = 0 then none else some (a / b)

/-- `Operation::from_result`: create the `Operation` from a code and a
previous result as first operand. -/
def Operation.fromResult (code : Char) (first : Nat) : Except OperationError Operation :=
  if code = OPCODE_ADD then .ok (.Add first)
  else if code = OPCODE_SUB then .ok (.Sub first)
  else if code = OPCODE_MUL then .ok (.Mul first)
  else if code = OPCODE_DIV then .ok (.Div first)
  else .error (.InvalidOperationCode code)

/-- `Operation::from`: create the `Operation` from a code and a first operand
given as a literal string (`from` is a Lean keyword, hence the prime). -/
def Operation.from' (code : Char) (firstOperand : String) : Except OperationError Operation :=
  match parseUsize firstOperand.data with
  | .error msg => .error (.InvalidFirstOperand firstOperand msg)
  | .ok parsed => Operation.fromResult code parsed

/-- `Operation::apply_result`: apply the operation to an already-resolved
second operand, with checked arithmetic. -/
def Operation.applyResult (op : Operation) (secondOperand : Nat) : Except OperationError Nat :=
  match op with
  | .Add firstOperand =>
    match checkedAdd firstOperand secondOperand with
    | some v => .ok v
    | none => .error .OverflowError
  | .Sub firstOperand =>
    match checkedSub firstOperand secondOperand with
    | some v => .ok v
    | none => .error .OverflowError
  | .Mul firstOperand =>
    match checkedMul firstOperand secondOperand with
    | some v => .ok v
    | none => .error .OverflowError
  | .Div firstOperand =>
    match checkedDiv firstOperand secondOperand with
    | some v => .ok v
    | none => .error .OverflowError

/-- `Operation::apply`: apply the operation to a second operand given as a
literal string. -/
def Operation.apply (op : Operation) (secondOperand : String) : Except OperationError Nat :=
  match parseUsize secondOperand.data with
  | .error msg => .error (.InvalidSecondOperand secondOperand msg)
  | .ok parsed => op.applyResult parsed

/-! ## `src/parser.rs` : `ParserState`, `ParseError` -/

/-- The legal states the parser can go through. -/
inductive ParserState where
  | FirstOperand
  | Operation
  | SecondOperand
  | CloseParenthesis
deriving DecidableEq, Repr

/-- Errors that the parsing process can cause. -/
inductive ParseError where
  /-- The expression to parse is empty. -/
  | EmptyExpression
  /-- Error converting an operand from string to unsigned integer. -/
  | ParseDigitError (operand msg : String)
  /-- The instantiation or application of an operation failed. -/
  | InvalidOperation (err : OperationError)
  /-- The expression is not arithmetically correct (invalid character). -/
  | MalformedExpression (symbol : String)
  /-- The number of parenthesis in the expression does not equal. -/
  | UnbalancedParenthesis (symbol : String)
  /-- The parser encountered an unexpected symbol. -/
  | UnexpectedSymbol (symbol : String) (state : ParserState) (operation : Option Operation)
  /-- The parser ended in an illegal state. -/
  | IllegalState (msg : String)
deriving DecidableEq, Repr

/-- True exactly on the four arithmetic operation codes
(the pattern `OPCODE_ADD | OPCODE_SUB | OPCODE_MUL | OPCODE_DIV`). -/
def isArithCode (c : Char) : Bool :=
  c == OPCODE_ADD || c == OPCODE_SUB || c == OPCODE_MUL || c == OPCODE_DIV

/-- `Parser::compute_state`: compute the new state of the parser from the
current state and incoming symbol.  The Rust function mutates the
accumulator (clearing it on most non-digit transitions), so this embedding
returns the new state together with the new accumulator contents. -/
def computeState (state : ParserState) (c : Char) (acc : List Char) :
    Except ParseError (ParserState × List Char) :=
  match state with
  | .FirstOperand =>
    if c.isDigit then .ok (.FirstOperand, acc)
    else if isArithCode c then .ok (.Operation, [])
    else if c = OPCODE_OPEN then .ok (.FirstOperand, acc)
    else if c = OPCODE_CLOSE then .ok (.CloseParenthesis, [])
    else .error (.MalformedExpression (String.mk [c]))
  | .Operation =>
    if c.isDigit then .ok (.SecondOperand, acc)
    else if isArithCode c ∧ acc ≠ [] then .ok (.Operation, [])
    else if c = OPCODE_OPEN then .ok (.Operation, [])
    else .error (.MalformedExpression (String.mk [c]))
  | .SecondOperand =>
    if c.isDigit then .ok (.SecondOperand, acc)
    else if isArithCode c then .ok (.Operation, [])
    else if c = OPCODE_OPEN then .ok (.SecondOperand, acc)
    else if c = OPCODE_CLOSE then .ok (.CloseParenthesis, [])
    else .error (.MalformedExpression (String.mk [c]))
  | .CloseParenthesis =>
    if c.isDigit then .error (.MalformedExpression (String.mk [c]))
    else if isArithCode c then .ok (.Operation, [])
    else if c = OPCODE_CLOSE then .ok (.CloseParenthesis, acc)
    else .error (.UnbalancedParenthesis (String.mk [c]))

/-- The symbol-consuming loop of `Parser::parse_internal`.  One invocation of
`parse_internal` corresponds to `parseLoopF fuel data .FirstOperand none []
result` (the function starts with state `FirstOperand`, no operation and an
empty accumulator).  The shared mutable cursor is modelled by returning the
list of unconsumed characters next to the `Result`; the recursive call on a
group-open symbol and the loop continuation after a group therefore thread
that list.  `fuel` decreases on every recursive call while each call receives
a strictly shorter list, so `length + 1` fuel (as supplied by `parse`) never
runs out; the fuel-exhaustion branch is unreachable. -/
def parseLoopF : Nat → List Char → ParserState → Option Operation → List Char → Option Nat →
    Except ParseError Nat × List Char
  | _, [], _, _, _, result =>
    (match result with
     | some r => .ok r
     | none => .error .EmptyExpression, [])
  | 0, c :: rest, _, _, _, _ =>
    (.error (.IllegalState "unreachable: insufficient fuel"), c :: rest)
  | fuel + 1, c :: rest, state, operation, acc, result =>
    match computeState state c acc with
    | .error e => (.error e, rest)
    | .ok (state1, acc1) =>
      if state1 = ParserState.FirstOperand ∧ c.isDigit then
        match parseUsize (acc1 ++ [c]) with
        | .error msg => (.error (.ParseDigitError (String.mk (acc1 ++ [c])) msg), rest)
        | .ok v => parseLoopF fuel rest state1 operation (acc1 ++ [c]) (some v)
      else if state1 = ParserState.SecondOperand ∧ c.isDigit then
        match operation with
        | none => (.error (.IllegalState "No operation when evaluating SecondOperand"), rest)
        | some op =>
          match op.apply (String.mk (acc1 ++ [c])) with
          | .error e => (.error (.InvalidOperation e), rest)
          | .ok v => parseLoopF fuel rest state1 operation (acc1 ++ [c]) (some v)
      else if isArithCode c ∧ state1 = ParserState.Operation then
        if acc1 = [] then
          match result with
          | none =>
            (.error (.IllegalState "No previous result and accumulator empty instantiating operation"),
             rest)
          | some firstOperand =>
            match Operation.fromResult c firstOperand with
            | .error e => (.error (.InvalidOperation e), rest)
            | .ok op => parseLoopF fuel rest state1 (some op) [] result
        else
          match Operation.from' c (String.mk acc1) with
          | .error e => (.error (.InvalidOperation e), rest)
          | .ok op => parseLoopF fuel rest state1 (some op) [] result
      else if c = OPCODE_OPEN then
        match operation, parseLoopF fuel rest ParserState.FirstOperand none [] result with
        | some _, (.error e, rem) => (.error e, rem)
        | _, (subRes, rem) =>
          let res : Except ParseError Nat :=
            match operation, subRes with
            | some op, .ok v => (op.applyResult v).mapError ParseError.InvalidOperation
            | _, s => s
          match rem with
          | h :: t =>
            if isArithCode h then parseLoopF fuel (h :: t) ParserState.FirstOperand operation acc1 res.toOption
            else (res, h :: t)
          | [] => (res, [])
      else if c = OPCODE_CLOSE ∧ state1 = ParserState.CloseParenthesis then
        (match result with
         | some r => .ok r
         | none => .error (.IllegalState "Result not available when closing parenthesis"), rest)
      else
        (.error (.UnexpectedSymbol (String.mk [c]) state1 operation), rest)

/-- `Parser::parse_internal`: start a fresh frame over the remaining input,
with the enclosing frame's running result passed in as `result`. -/
def parseInternal (data : List Char) (result : Option Nat) :
    Except ParseError Nat × List Char :=
  parseLoopF (data.length + 1) data .FirstOperand none [] result

/-- The `while data.clone().count() > 0` loop of `Parser::parse`: repeatedly
invoke `parse_internal` on the remaining input, then unwrap the final
result (`result.ok_or(EmptyExpression)`).  Each non-empty iteration consumes
at least one symbol, so the `length + 1` fuel supplied by `parse` never runs
out. -/
def parseOuterF : Nat → List Char → Option Nat → Except ParseError Nat
  | _, [], result =>
    match result with
    | some v => .ok v
    | none => .error .EmptyExpression
  | 0, _ :: _, _ => .error (.IllegalState "unreachable: insufficient fuel")
  | fuel + 1, c :: rest, result =>
    match parseInternal (c :: rest) result with
    | (.error e, _) => .error e
    | (.ok v, rem) => parseOuterF fuel rem (some v)

/-- The parser structure (`Parser` holds the expression to parse). -/
structure Parser where
  expression : String

/-- `Parser::parse`: first the pre-scan parenthesis-balance check over the
whole input, then the state-machine loop. -/
def Parser.parse (p : Parser) : Except ParseError Nat :=
  let data := p.expression.data
  let openBrackets := (data.filter (fun c => c = OPCODE_OPEN)).length
  let closedBrackets := (data.filter (fun c => c = OPCODE_CLOSE)).length
  if openBrackets > closedBrackets then
    .error (.UnbalancedParenthesis (String.mk [OPCODE_OPEN]))
  else if closedBrackets > openBrackets then
    .error (.UnbalancedParenthesis (String.mk [OPCODE_CLOSE]))
  else parseOuterF (data.length + 1) data none

/-- Parse an expression string (`Parser::new(expression).parse()`). -/
def parse (expression : String) : Except ParseError Nat :=
  (Parser.mk expression).parse


/-! ## Spec-side definitions used to state the claims

These do not embed repository code: they render the claims' notion of a
well-formed expression (canonical decimal operands, operator codes) and the
spec's "left fold of the successive operations over the operands", to be
compared with what `parse` computes. -/

/-- The canonical decimal digit string of `n` (no leading zeros). -/
def renderNum (n : Nat) : List Char :=
  if n < 10 then [Nat.digitChar n] else renderNum (n / 10) ++ [Nat.digitChar (n % 10)]
decreasing_by exact Nat.div_lt_self (by omega) (by omega)

/-- Render a chain of operations: each pair contributes its operator code
followed by the canonical rendering of its operand. -/
def renderOps : List (Char × Nat) → List Char
  | [] => []
  | (c, n) :: tl => c :: (renderNum n ++ renderOps tl)

/-- The left fold of the successive operations over the operands: starting
from the running value, build the `Operation` from the next code and apply it
to the next operand, threading failures. -/
def evalFold (curr : Nat) : List (Char × Nat) → Except OperationError Nat
  | [] => .ok curr
  | (c, n) :: tl =>
    match Operation.fromResult c curr with
    | .error e => .error e
    | .ok op =>
      match op.applyResult n with
      | .error e => .error e
      | .ok v => evalFold v tl

/-! ### The repository's own test suite, replayed on the embedding

These equalities reproduce every assertion of `mod test` in
`src/parser.rs`, witnessing that the embedding computes exactly what the
Rust implementation is tested to compute. -/

theorem test_examples_1 : parse "3a2c4" = .ok 20 := rfl

theorem test_examples_2 : parse "32a2d2" = .ok 17 := rfl

theorem test_examples_3 : parse "500a10b66c32" = .ok 14208 := rfl

theorem test_examples_4 : parse "3ae4c66fb32" = .ok 235 := rfl

theorem test_examples_5 : parse "3c4d2aee2a4c41fc4f" = .ok 990 := rfl

theorem test_redundant_parenthesis_1 : parse "e2f" = .ok 2 := rfl

theorem test_redundant_parenthesis_2 : parse "e2fae3f" = .ok 5 := rfl

theorem test_malformed : parse "3aa2c4" = .error (.MalformedExpression "a") := rfl

theorem test_unbalanced_parenthesis_1 :
    parse "3aee2fc4" = .error (.UnbalancedParenthesis "e") := rfl

theorem test_unbalanced_parenthesis_2 :
    parse "3aee2fffc4" = .error (.UnbalancedParenthesis "f") := rfl

theorem test_nested_parenthesis_1 : parse "233b3ae4c66fb99ae33ce3a5ff" = .ok 659 := rfl

theorem test_nested_parenthesis_2 : parse "eeee5fae3fffcee2fff" = .ok 16 := rfl

theorem test_overflow_1 :
    parse "99999999999999999999999999c9" =
      .error (.ParseDigitError "99999999999999999999"
        "number too large to fit in target type") := rfl

theorem test_overflow_2 :
    parse "9c99999999999999999999999999" =
      .error (.InvalidOperation .OverflowError) := rfl

theorem test_empty : parse "" = .error .EmptyExpression := rfl

/-! ## Character classification lemmas -/

theorem isArithCode_iff {c : Char} :
    isArithCode c = true ↔ c = OPCODE_ADD ∨ c = OPCODE_SUB ∨ c = OPCODE_MUL ∨ c = OPCODE_DIV := by
  simp only [isArithCode, Bool.or_eq_true, beq_iff_eq]
  tauto

theorem arith_not_digit {c : Char} (h : isArithCode c = true) : c.isDigit = false := by
  rcases isArithCode_iff.mp h with rfl | rfl | rfl | rfl <;> decide

theorem arith_ne_open {c : Char} (h : isArithCode c = true) : c ≠ OPCODE_OPEN := by
  rcases isArithCode_iff.mp h with rfl | rfl | rfl | rfl <;> decide

theorem arith_ne_close {c : Char} (h : isArithCode c = true) : c ≠ OPCODE_CLOSE := by
  rcases isArithCode_iff.mp h with rfl | rfl | rfl | rfl <;> decide

theorem digit_ne_open {c : Char} (h : c.isDigit = true) : c ≠ OPCODE_OPEN := by
  rintro rfl; exact absurd h (by decide)

theorem digit_ne_close {c : Char} (h : c.isDigit = true) : c ≠ OPCODE_CLOSE := by
  rintro rfl; exact absurd h (by decide)

theorem digit_not_arith {c : Char} (h : c.isDigit = true) : isArithCode c = false := by
  cases ha : isArithCode c
  · rfl
  · rw [arith_not_digit ha] at h; cases h

/-! ## `digitsToNat` lemmas -/

theorem digitsToNat_append (a b : List Char) :
    digitsToNat (a ++ b) = b.foldl (fun n c => 10 * n + (c.toNat - 48)) (digitsToNat a) := by
  simp [digitsToNat, List.foldl_append]

theorem le_foldl_digits (b : List Char) :
    ∀ init : Nat, init ≤ b.foldl (fun n c => 10 * n + (c.toNat - 48)) init := by
  induction b with
  | nil => intro init; simp
  | cons c t ih =>
    intro init
    calc init ≤ 10 * init + (c.toNat - 48) := by omega
    _ ≤ t.foldl (fun n c => 10 * n + (c.toNat - 48)) (10 * init + (c.toNat - 48)) := ih _

theorem digitsToNat_le_append (a b : List Char) : digitsToNat a ≤ digitsToNat (a ++ b) := by
  rw [digitsToNat_append]; exact le_foldl_digits b _

theorem digitsToNat_snoc (a : List Char) (c : Char) :
    digitsToNat (a ++ [c]) = 10 * digitsToNat a + (c.toNat - 48) := by
  rw [digitsToNat_append]; rfl

theorem dtn_cons_ge (d : Char) (p : List Char) : d.toNat - 48 ≤ digitsToNat (d :: p) := by
  have : digitsToNat (d :: p) = p.foldl (fun n c => 10 * n + (c.toNat - 48)) (d.toNat - 48) := by
    simp [digitsToNat]
  rw [this]; exact le_foldl_digits p _

/-! ## Lemmas about the canonical decimal rendering -/

theorem digitChar_isDigit {d : Nat} (h : d < 10) : (Nat.digitChar d).isDigit = true := by
  interval_cases d <;> decide

theorem digitChar_toNat {d : Nat} (h : d < 10) : (Nat.digitChar d).toNat = 48 + d := by
  interval_cases d <;> decide

theorem renderNum_ne_nil (n : Nat) : renderNum n ≠ [] := by
  rw [renderNum]
  split <;> simp

theorem renderNum_digits : ∀ n : Nat, ∀ c ∈ renderNum n, c.isDigit = true := by
  intro n
  induction n using Nat.strong_induction_on with
  | _ n ih =>
    rw [renderNum]
    split
    · intro c hc
      simp only [List.mem_singleton] at hc
      subst hc
      exact digitChar_isDigit (by omega)
    · intro c hc
      rcases List.mem_append.mp hc with h | h
      · exact ih (n / 10) (Nat.div_lt_self (by omega) (by omega)) c h
      · simp only [List.mem_singleton] at h
        subst h
        exact digitChar_isDigit (Nat.mod_lt _ (by omega))

theorem digitsToNat_renderNum : ∀ n : Nat, digitsToNat (renderNum n) = n := by
  intro n
  induction n using Nat.strong_induction_on with
  | _ n ih =>
    rw [renderNum]
    split
    · rename_i h
      simp [digitsToNat, digitChar_toNat h]
    · rename_i h
      rw [digitsToNat_snoc, ih (n / 10) (Nat.div_lt_self (by omega) (by omega)),
        digitChar_toNat (Nat.mod_lt _ (by omega))]
      omega

theorem renderNum_head_pos :
    ∀ n : Nat, n ≠ 0 → ∃ d t, renderNum n = d :: t ∧ 49 ≤ d.toNat := by
  intro n
  induction n using Nat.strong_induction_on with
  | _ n ih =>
    intro hn
    rw [renderNum]
    split
    · rename_i h
      exact ⟨Nat.digitChar n, [], rfl, by rw [digitChar_toNat h]; omega⟩
    · rename_i h
      obtain ⟨d, t, hd, hge⟩ :=
        ih (n / 10) (Nat.div_lt_self (by omega) (by omega)) (by omega)
      exact ⟨d, t ++ [Nat.digitChar (n % 10)], by rw [hd]; simp, hge⟩

/-- Every nonempty prefix of a canonical rendering of a nonzero number has a
nonzero value (its leading digit is at least 1). -/
theorem prefix_pos {n : Nat} (hn : n ≠ 0) {p q : List Char}
    (hpq : renderNum n = p ++ q) (hp : p ≠ []) : 1 ≤ digitsToNat p := by
  obtain ⟨d, t, hd, hge⟩ := renderNum_head_pos n hn
  rcases p with _ | ⟨p0, p'⟩
  · exact absurd rfl hp
  · have : p0 = d := by
      rw [hd] at hpq
      exact (List.cons.injEq _ _ _ _ ▸ hpq).1.symm ▸ rfl
    subst this
    have := dtn_cons_ge p0 p'
    omega

/-! ## `computeState` step facts -/

theorem cs_digit_FO {c : Char} (acc : List Char) (h : c.isDigit = true) :
    computeState .FirstOperand c acc = .ok (.FirstOperand, acc) := by
  simp [computeState, h]

theorem cs_digit_Op {c : Char} (acc : List Char) (h : c.isDigit = true) :
    computeState .Operation c acc = .ok (.SecondOperand, acc) := by
  simp [computeState, h]

theorem cs_digit_SO {c : Char} (acc : List Char) (h : c.isDigit = true) :
    computeState .SecondOperand c acc = .ok (.SecondOperand, acc) := by
  simp [computeState, h]

theorem cs_arith_FO {c : Char} (acc : List Char) (h : isArithCode c = true) :
    computeState .FirstOperand c acc = .ok (.Operation, []) := by
  simp [computeState, arith_not_digit h, h]

theorem cs_arith_SO {c : Char} (acc : List Char) (h : isArithCode c = true) :
    computeState .SecondOperand c acc = .ok (.Operation, []) := by
  simp [computeState, arith_not_digit h, h]

theorem cs_open_FO (acc : List Char) :
    computeState .FirstOperand OPCODE_OPEN acc = .ok (.FirstOperand, acc) := rfl

theorem cs_open_Op (acc : List Char) :
    computeState .Operation OPCODE_OPEN acc = .ok (.Operation, []) := rfl

theorem cs_open_SO (acc : List Char) :
    computeState .SecondOperand OPCODE_OPEN acc = .ok (.SecondOperand, acc) := rfl

theorem cs_close_FO (acc : List Char) :
    computeState .FirstOperand OPCODE_CLOSE acc = .ok (.CloseParenthesis, []) := rfl

theorem cs_close_SO (acc : List Char) :
    computeState .SecondOperand OPCODE_CLOSE acc = .ok (.CloseParenthesis, []) := rfl

/-! ## `parseLoopF` single-step lemmas

Each lemma captures one iteration of the `while let Some(char) = data.next()`
loop of `parse_internal`, for one dispatch arm. -/

theorem loop_nil_some (f : Nat) (s : ParserState) (o : Option Operation) (a : List Char)
    (v : Nat) : parseLoopF f [] s o a (some v) = (.ok v, []) := by
  cases f <;> rfl

theorem loop_nil_none (f : Nat) (s : ParserState) (o : Option Operation) (a : List Char) :
    parseLoopF f [] s o a none = (.error .EmptyExpression, []) := by
  cases f <;> rfl

theorem step_digit_FO {c : Char} {v : Nat} (f : Nat) (rest acc : List Char)
    (o : Option Operation) (r : Option Nat) (h : c.isDigit = true)
    (hp : parseUsize (acc ++ [c]) = .ok v) :
    parseLoopF (f + 1) (c :: rest) .FirstOperand o acc r
      = parseLoopF f rest .FirstOperand o (acc ++ [c]) (some v) := by
  simp only [parseLoopF, cs_digit_FO acc h]
  simp [h, hp]

theorem step_digit_FO_err {c : Char} {msg : String} (f : Nat) (rest acc : List Char)
    (o : Option Operation) (r : Option Nat) (h : c.isDigit = true)
    (hp : parseUsize (acc ++ [c]) = .error msg) :
    parseLoopF (f + 1) (c :: rest) .FirstOperand o acc r
      = (.error (.ParseDigitError (String.mk (acc ++ [c])) msg), rest) := by
  simp only [parseLoopF, cs_digit_FO acc h]
  simp [h, hp]

theorem step_digit_SecondOp {c : Char} {op : Operation} {v : Nat} {s : ParserState}
    (f : Nat) (rest acc : List Char) (r : Option Nat)
    (hs : s = .Operation ∨ s = .SecondOperand) (h : c.isDigit = true)
    (ha : op.apply (String.mk (acc ++ [c])) = .ok v) :
    parseLoopF (f + 1) (c :: rest) s (some op) acc r
      = parseLoopF f rest .SecondOperand (some op) (acc ++ [c]) (some v) := by
  rcases hs with rfl | rfl
  · simp only [parseLoopF, cs_digit_Op acc h]
    simp [h, ha]
  · simp only [parseLoopF, cs_digit_SO acc h]
    simp [h, ha]

theorem step_digit_SecondOp_err {c : Char} {op : Operation} {e : OperationError}
    {s : ParserState} (f : Nat) (rest acc : List Char) (r : Option Nat)
    (hs : s = .Operation ∨ s = .SecondOperand) (h : c.isDigit = true)
    (ha : op.apply (String.mk (acc ++ [c])) = .error e) :
    parseLoopF (f + 1) (c :: rest) s (some op) acc r
      = (.error (.InvalidOperation e), rest) := by
  rcases hs with rfl | rfl
  · simp only [parseLoopF, cs_digit_Op acc h]
    simp [h, ha]
  · simp only [parseLoopF, cs_digit_SO acc h]
    simp [h, ha]

theorem step_arith {c : Char} {op : Operation} {curr : Nat} {s : ParserState}
    (f : Nat) (rest acc : List Char) (o : Option Operation)
    (hs : s = .FirstOperand ∨ s = .SecondOperand) (hc : isArithCode c = true)
    (hfr : Operation.fromResult c curr = .ok op) :
    parseLoopF (f + 1) (c :: rest) s o acc (some curr)
      = parseLoopF f rest .Operation (some op) [] (some curr) := by
  rcases hs with rfl | rfl
  · simp only [parseLoopF, cs_arith_FO acc hc]
    simp [arith_not_digit hc, hc, hfr]
  · simp only [parseLoopF, cs_arith_SO acc hc]
    simp [arith_not_digit hc, hc, hfr]

theorem step_arith_noresult {c : Char} {s : ParserState}
    (f : Nat) (rest acc : List Char) (o : Option Operation)
    (hs : s = .FirstOperand ∨ s = .SecondOperand) (hc : isArithCode c = true) :
    parseLoopF (f + 1) (c :: rest) s o acc none
      = (.error (.IllegalState "No previous result and accumulator empty instantiating operation"),
         rest) := by
  rcases hs with rfl | rfl
  · simp only [parseLoopF, cs_arith_FO acc hc]
    simp [arith_not_digit hc, hc]
  · simp only [parseLoopF, cs_arith_SO acc hc]
    simp [arith_not_digit hc, hc]

theorem step_close {s : ParserState} (f : Nat) (rest acc : List Char)
    (o : Option Operation) (v : Nat) (hs : s = .FirstOperand ∨ s = .SecondOperand) :
    parseLoopF (f + 1) (OPCODE_CLOSE :: rest) s o acc (some v) = (.ok v, rest) := by
  rcases hs with rfl | rfl <;> rfl

theorem step_open_none_ret {s s1 : ParserState} {acc1 : List Char}
    {res : Except ParseError Nat} (f : Nat) (rest acc : List Char) (r : Option Nat)
    (hcs : computeState s OPCODE_OPEN acc = .ok (s1, acc1))
    (hsub : parseLoopF f rest .FirstOperand none [] r = (res, [])) :
    parseLoopF (f + 1) (OPCODE_OPEN :: rest) s none acc r = (res, []) := by
  simp only [parseLoopF, hcs, hsub]
  simp [show OPCODE_OPEN.isDigit = false from rfl, show isArithCode OPCODE_OPEN = false from rfl]

theorem step_open_some_ret {s s1 : ParserState} {acc1 : List Char} {op : Operation}
    {w u : Nat} (f : Nat) (rest acc : List Char) (r : Option Nat)
    (hcs : computeState s OPCODE_OPEN acc = .ok (s1, acc1))
    (hsub : parseLoopF f rest .FirstOperand none [] r = (.ok w, []))
    (hap : op.applyResult w = .ok u) :
    parseLoopF (f + 1) (OPCODE_OPEN :: rest) s (some op) acc r = (.ok u, []) := by
  simp only [parseLoopF, hcs, hsub]
  simp [show OPCODE_OPEN.isDigit = false from rfl, show isArithCode OPCODE_OPEN = false from rfl,
    hap, Except.mapError]

theorem step_open_err_swallow {s s1 : ParserState} {acc1 : List Char} {e : ParseError}
    {h : Char} (f : Nat) (rest acc t : List Char) (r : Option Nat)
    (hcs : computeState s OPCODE_OPEN acc = .ok (s1, acc1))
    (hsub : parseLoopF f rest .FirstOperand none [] r = (.error e, h :: t))
    (hh : isArithCode h = true) :
    parseLoopF (f + 1) (OPCODE_OPEN :: rest) s none acc r
      = parseLoopF f (h :: t) .FirstOperand none acc1 none := by
  simp only [parseLoopF, hcs, hsub]
  simp [show OPCODE_OPEN.isDigit = false from rfl, show isArithCode OPCODE_OPEN = false from rfl,
    hh, Except.toOption]

theorem step_open_apply_err_swallow {s s1 : ParserState} {acc1 : List Char} {op : Operation}
    {v : Nat} {oe : OperationError} {h : Char} (f : Nat) (rest acc t : List Char)
    (r : Option Nat)
    (hcs : computeState s OPCODE_OPEN acc = .ok (s1, acc1))
    (hsub : parseLoopF f rest .FirstOperand none [] r = (.ok v, h :: t))
    (hap : op.applyResult v = .error oe)
    (hh : isArithCode h = true) :
    parseLoopF (f + 1) (OPCODE_OPEN :: rest) s (some op) acc r
      = parseLoopF f (h :: t) .FirstOperand (some op) acc1 none := by
  simp only [parseLoopF, hcs, hsub]
  simp [show OPCODE_OPEN.isDigit = false from rfl, show isArithCode OPCODE_OPEN = false from rfl,
    hh, hap, Except.mapError, Except.toOption]

theorem step_open_err_noswallow {s s1 : ParserState} {acc1 : List Char} {e : ParseError}
    (f : Nat) (rest acc rem : List Char) (r : Option Nat)
    (hcs : computeState s OPCODE_OPEN acc = .ok (s1, acc1))
    (hsub : parseLoopF f rest .FirstOperand none [] r = (.error e, rem))
    (hnop : ∀ h t, rem = h :: t → isArithCode h = false) :
    parseLoopF (f + 1) (OPCODE_OPEN :: rest) s none acc r = (.error e, rem) := by
  rcases rem with _ | ⟨h, t⟩
  · exact step_open_none_ret f rest acc r hcs hsub
  · have hh := hnop h t rfl
    simp only [parseLoopF, hcs, hsub]
    simp [show OPCODE_OPEN.isDigit = false from rfl,
      show isArithCode OPCODE_OPEN = false from rfl, hh]

theorem step_open_some_suberr {s s1 : ParserState} {acc1 : List Char} {op : Operation}
    {e : ParseError} (f : Nat) (rest acc rem : List Char) (r : Option Nat)
    (hcs : computeState s OPCODE_OPEN acc = .ok (s1, acc1))
    (hsub : parseLoopF f rest .FirstOperand none [] r = (.error e, rem)) :
    parseLoopF (f + 1) (OPCODE_OPEN :: rest) s (some op) acc r = (.error e, rem) := by
  simp only [parseLoopF, hcs, hsub]
  simp [show OPCODE_OPEN.isDigit = false from rfl, show isArithCode OPCODE_OPEN = false from rfl]

theorem step_open_apply_err_noswallow {s s1 : ParserState} {acc1 : List Char} {op : Operation}
    {v : Nat} {oe : OperationError} (f : Nat) (rest acc rem : List Char) (r : Option Nat)
    (hcs : computeState s OPCODE_OPEN acc = .ok (s1, acc1))
    (hsub : parseLoopF f rest .FirstOperand none [] r = (.ok v, rem))
    (hap : op.applyResult v = .error oe)
    (hnop : ∀ h t, rem = h :: t → isArithCode h = false) :
    parseLoopF (f + 1) (OPCODE_OPEN :: rest) s (some op) acc r
      = (.error (.InvalidOperation oe), rem) := by
  rcases rem with _ | ⟨h, t⟩
  · simp only [parseLoopF, hcs, hsub]
    simp [show OPCODE_OPEN.isDigit = false from rfl,
      show isArithCode OPCODE_OPEN = false from rfl, hap, Except.mapError]
  · have hh := hnop h t rfl
    simp only [parseLoopF, hcs, hsub]
    simp [show OPCODE_OPEN.isDigit = false from rfl,
      show isArithCode OPCODE_OPEN = false from rfl, hap, hh, Except.mapError]

/-! ## `parseUsize` and `applyResult` characterizations -/

theorem parseUsize_ok_of {l : List Char} (hne : l ≠ []) (hd : ∀ c ∈ l, c.isDigit = true)
    (hle : digitsToNat l ≤ USIZE_MAX) : parseUsize l = .ok (digitsToNat l) := by
  rw [parseUsize, if_neg hne]
  rw [if_pos (by rw [List.all_eq_true]; exact hd)]
  rw [if_pos hle]

theorem parseUsize_err_of {l : List Char} (hne : l ≠ []) (hd : ∀ c ∈ l, c.isDigit = true)
    (hgt : USIZE_MAX < digitsToNat l) :
    parseUsize l = .error "number too large to fit in target type" := by
  rw [parseUsize, if_neg hne]
  rw [if_pos (by rw [List.all_eq_true]; exact hd)]
  rw [if_neg (by omega)]

theorem applyResult_Add (a b : Nat) :
    (Operation.Add a).applyResult b
      = if a + b ≤ USIZE_MAX then .ok (a + b) else .error .OverflowError := by
  simp only [Operation.applyResult, checkedAdd]
  by_cases h : a + b ≤ USIZE_MAX
  · rw [if_pos h, if_pos h]
  · rw [if_neg h, if_neg h]

theorem applyResult_Sub (a b : Nat) :
    (Operation.Sub a).applyResult b
      = if b ≤ a then .ok (a - b) else .error .OverflowError := by
  simp only [Operation.applyResult, checkedSub]
  by_cases h : b ≤ a
  · rw [if_pos h, if_pos h]
  · rw [if_neg h, if_neg h]

theorem applyResult_Mul (a b : Nat) :
    (Operation.Mul a).applyResult b
      = if a * b ≤ USIZE_MAX then .ok (a * b) else .error .OverflowError := by
  simp only [Operation.applyResult, checkedMul]
  by_cases h : a * b ≤ USIZE_MAX
  · rw [if_pos h, if_pos h]
  · rw [if_neg h, if_neg h]

theorem applyResult_Div (a b : Nat) :
    (Operation.Div a).applyResult b
      = if b = 0 then .error .OverflowError else .ok (a / b) := by
  simp only [Operation.applyResult, checkedDiv]
  by_cases h : b = 0
  · rw [if_pos h, if_pos h]
  · rw [if_neg h, if_neg h]

/-- If applying `op` to the full value of a canonically rendered operand
succeeds, applying it to the value of any nonempty prefix of that rendering
succeeds as well (prefix values are monotone, and nonzero when the full
value is nonzero, which rules out division by zero mid-scan). -/
theorem applyPrefix_ok {op : Operation} {n v : Nat} (hok : op.applyResult n = .ok v)
    {p q : List Char} (hpq : renderNum n = p ++ q) (hp : p ≠ []) :
    ∃ u, op.applyResult (digitsToNat p) = .ok u := by
  have hle : digitsToNat p ≤ n := by
    have h := digitsToNat_le_append p q
    rw [← hpq, digitsToNat_renderNum] at h
    exact h
  cases op with
  | Add a =>
    rw [applyResult_Add] at hok ⊢
    split at hok
    · exact ⟨_, by rw [if_pos (by omega)]⟩
    · cases hok
  | Sub a =>
    rw [applyResult_Sub] at hok ⊢
    split at hok
    · rename_i h
      exact ⟨_, by rw [if_pos (by omega)]⟩
    · cases hok
  | Mul a =>
    rw [applyResult_Mul] at hok ⊢
    split at hok
    · rename_i h
      exact ⟨_, by rw [if_pos (le_trans (Nat.mul_le_mul_left a hle) h)]⟩
    · cases hok
  | Div a =>
    rw [applyResult_Div] at hok ⊢
    split at hok
    · cases hok
    · rename_i h
      have : 1 ≤ digitsToNat p := prefix_pos h hpq hp
      exact ⟨_, by rw [if_neg (by omega)]⟩

theorem apply_mk {op : Operation} {l : List Char} {v : Nat}
    (h1 : parseUsize l = .ok (digitsToNat l))
    (h2 : op.applyResult (digitsToNat l) = .ok v) :
    op.apply (String.mk l) = .ok v := by
  unfold Operation.apply
  rw [show (String.mk l).data = l from rfl, h1]
  exact h2

/-! ## Scanning whole digit runs -/

/-- Scanning the digit run `ds` of a first operand: each digit is appended to
the accumulator and the running result becomes the value of the accumulator
so far (which never exceeds the value of the full run). -/
theorem scanFO : ∀ ds : List Char, ds ≠ [] →
    ∀ (acc tail : List Char) (o : Option Operation) (r : Option Nat) (f : Nat),
    (∀ c ∈ acc, c.isDigit = true) → (∀ c ∈ ds, c.isDigit = true) →
    digitsToNat (acc ++ ds) ≤ USIZE_MAX →
    parseLoopF (ds.length + f) (ds ++ tail) .FirstOperand o acc r
      = parseLoopF f tail .FirstOperand o (acc ++ ds) (some (digitsToNat (acc ++ ds))) := by
  intro ds
  induction ds with
  | nil => intro h; exact absurd rfl h
  | cons c ds' ih =>
    intro _ acc tail o r f hacc hds hle
    have hc : c.isDigit = true := hds c (List.mem_cons_self c ds')
    have hacc' : ∀ x ∈ acc ++ [c], x.isDigit = true := by
      intro x hx
      rcases List.mem_append.mp hx with h | h
      · exact hacc x h
      · simp only [List.mem_singleton] at h; subst h; exact hc
    have hassoc : (acc ++ [c]) ++ ds' = acc ++ (c :: ds') := by simp
    have hle' : digitsToNat ((acc ++ [c]) ++ ds') ≤ USIZE_MAX := by rw [hassoc]; exact hle
    have hstep : parseUsize (acc ++ [c]) = .ok (digitsToNat (acc ++ [c])) :=
      parseUsize_ok_of (by simp) hacc'
        (le_trans (digitsToNat_le_append (acc ++ [c]) ds') hle')
    rw [show (c :: ds').length + f = (ds'.length + f) + 1 by simp [List.length_cons]; omega]
    rw [show (c :: ds') ++ tail = c :: (ds' ++ tail) from rfl]
    rw [step_digit_FO (ds'.length + f) (ds' ++ tail) acc o r hc hstep]
    rcases eq_or_ne ds' [] with rfl | hne
    · simp
    · rw [ih hne (acc ++ [c]) tail o _ f hacc'
        (fun x hx => hds x (List.mem_cons_of_mem c hx)) hle']
      rw [hassoc]

/-- Scanning the digit run `ds` of a second operand: each digit is appended
to the accumulator and the pending operation is applied to the value of the
accumulator so far; provided every intermediate application succeeds, the
running result ends at the application to the full run. -/
theorem scanSO : ∀ ds : List Char, ds ≠ [] →
    ∀ (s : ParserState) (acc tail : List Char) (op : Operation) (r : Option Nat)
      (f vfull : Nat),
    (s = .Operation ∨ s = .SecondOperand) →
    (∀ c ∈ acc, c.isDigit = true) → (∀ c ∈ ds, c.isDigit = true) →
    digitsToNat (acc ++ ds) ≤ USIZE_MAX →
    (∀ p q, ds = p ++ q → p ≠ [] → ∃ u, op.applyResult (digitsToNat (acc ++ p)) = .ok u) →
    op.applyResult (digitsToNat (acc ++ ds)) = .ok vfull →
    parseLoopF (ds.length + f) (ds ++ tail) s (some op) acc r
      = parseLoopF f tail .SecondOperand (some op) (acc ++ ds) (some vfull) := by
  intro ds
  induction ds with
  | nil => intro h; exact absurd rfl h
  | cons c ds' ih =>
    intro _ s acc tail op r f vfull hs hacc hds hle hpre hfull
    have hc : c.isDigit = true := hds c (List.mem_cons_self c ds')
    have hacc' : ∀ x ∈ acc ++ [c], x.isDigit = true := by
      intro x hx
      rcases List.mem_append.mp hx with h | h
      · exact hacc x h
      · simp only [List.mem_singleton] at h; subst h; exact hc
    have hassoc : (acc ++ [c]) ++ ds' = acc ++ (c :: ds') := by simp
    have hle1 : digitsToNat (acc ++ [c]) ≤ USIZE_MAX :=
      le_trans (by rw [← hassoc]; exact digitsToNat_le_append _ ds') hle
    have hpu : parseUsize (acc ++ [c]) = .ok (digitsToNat (acc ++ [c])) :=
      parseUsize_ok_of (by simp) hacc' hle1
    obtain ⟨u, hu⟩ : ∃ u, op.applyResult (digitsToNat (acc ++ [c])) = .ok u := by
      rcases eq_or_ne ds' [] with rfl | hne
      · exact ⟨vfull, hfull⟩
      · exact hpre [c] ds' rfl (by simp)
    have happ : op.apply (String.mk (acc ++ [c])) = .ok u := apply_mk hpu hu
    rw [show (c :: ds').length + f = (ds'.length + f) + 1 by simp [List.length_cons]; omega]
    rw [show (c :: ds') ++ tail = c :: (ds' ++ tail) from rfl]
    rw [step_digit_SecondOp (ds'.length + f) (ds' ++ tail) acc r hs hc happ]
    rcases eq_or_ne ds' [] with rfl | hne
    · have : u = vfull := by
        rw [show acc ++ [c] = acc ++ [c] ++ ([] : List Char) by simp] at hfull
        rw [show (acc ++ [c]) ++ ([] : List Char) = acc ++ [c] by simp] at hfull
        rw [hu] at hfull
        exact (Except.ok.injEq _ _ ▸ hfull)
      subst this
      simp
    · have hpre' : ∀ p q, ds' = p ++ q → p ≠ [] →
          ∃ w, op.applyResult (digitsToNat ((acc ++ [c]) ++ p)) = .ok w := by
        intro p q hpq hp
        have : c :: ds' = (c :: p) ++ q := by rw [hpq]; rfl
        obtain ⟨w, hw⟩ := hpre (c :: p) q this (by simp)
        exact ⟨w, by rw [show (acc ++ [c]) ++ p = acc ++ (c :: p) by simp]; exact hw⟩
      have hfull' : op.applyResult (digitsToNat ((acc ++ [c]) ++ ds')) = .ok vfull := by
        rw [hassoc]; exact hfull
      rw [ih hne .SecondOperand (acc ++ [c]) tail op _ f vfull (Or.inr rfl) hacc'
        (fun x hx => hds x (List.mem_cons_of_mem c hx)) (by rw [hassoc]; exact hle) hpre' hfull']
      rw [hassoc]


/-! ## Groupless expressions: the rendered chain follows the left fold -/

theorem fromResult_arith {c : Char} (curr : Nat) (hc : isArithCode c = true) :
    ∃ op, Operation.fromResult c curr = .ok op := by
  rcases isArithCode_iff.mp hc with rfl | rfl | rfl | rfl <;> exact ⟨_, rfl⟩

/-- Processing a whole rendered operator/operand chain from a state expecting
an operator: the running result evolves by the left fold. -/
theorem parseChain : ∀ (ops : List (Char × Nat)) (s : ParserState) (o : Option Operation)
    (acc tail : List Char) (curr v : Nat) (f : Nat),
    (s = .FirstOperand ∨ s = .SecondOperand) →
    (∀ p ∈ ops, isArithCode p.1 = true ∧ p.2 ≤ USIZE_MAX) →
    evalFold curr ops = .ok v →
    ∃ s' o' acc', (s' = .FirstOperand ∨ s' = .SecondOperand) ∧
      parseLoopF ((renderOps ops).length + f) (renderOps ops ++ tail) s o acc (some curr)
        = parseLoopF f tail s' o' acc' (some v) := by
  intro ops
  induction ops with
  | nil =>
    intro s o acc tail curr v f hs _ hfold
    have hv : curr = v := by
      simpa [evalFold] using hfold
    subst hv
    exact ⟨s, o, acc, hs, by simp [renderOps]⟩
  | cons p tl ih =>
    rcases p with ⟨c, n⟩
    intro s o acc tail curr v f hs hops hfold
    have hc : isArithCode c = true := (hops (c, n) (List.mem_cons_self _ _)).1
    have hn : n ≤ USIZE_MAX := (hops (c, n) (List.mem_cons_self _ _)).2
    rcases hop : Operation.fromResult c curr with e | op
    · simp [evalFold, hop] at hfold
    rcases happ : op.applyResult n with e | v1
    · simp [evalFold, hop, happ] at hfold
    simp only [evalFold, hop, happ] at hfold
    have hdata : renderOps ((c, n) :: tl) ++ tail
        = c :: (renderNum n ++ (renderOps tl ++ tail)) := by
      simp [renderOps]
    have hlen : (renderOps ((c, n) :: tl)).length + f
        = ((renderNum n).length + ((renderOps tl).length + f)) + 1 := by
      simp [renderOps]
      omega
    rw [hdata, hlen]
    rw [step_arith ((renderNum n).length + ((renderOps tl).length + f))
      (renderNum n ++ (renderOps tl ++ tail)) acc o hs hc hop]
    have hfull : op.applyResult (digitsToNat (([] : List Char) ++ renderNum n)) = .ok v1 := by
      rw [List.nil_append, digitsToNat_renderNum]; exact happ
    have hpre : ∀ p q, renderNum n = p ++ q → p ≠ [] →
        ∃ u, op.applyResult (digitsToNat (([] : List Char) ++ p)) = .ok u := by
      intro p q hpq hp
      rw [List.nil_append]
      exact applyPrefix_ok happ hpq hp
    rw [scanSO (renderNum n) (renderNum_ne_nil n) .Operation [] (renderOps tl ++ tail) op
      (some curr) ((renderOps tl).length + f) v1 (Or.inl rfl) (by simp)
      (renderNum_digits n) (by rw [List.nil_append, digitsToNat_renderNum]; exact hn)
      hpre hfull]
    rw [List.nil_append]
    obtain ⟨s2, o2, acc2, hs2, heq⟩ := ih .SecondOperand (some op) (renderNum n) tail v1 v f
      (Or.inr rfl) (fun q hq => hops q (List.mem_cons_of_mem _ hq)) hfold
    exact ⟨s2, o2, acc2, hs2, heq⟩

/-! ## The outer loop of `Parser::parse` -/

theorem outer_nil_some (f : Nat) (v : Nat) : parseOuterF f [] (some v) = .ok v := by
  cases f <;> rfl

theorem outer_step {f : Nat} {data rem : List Char} {r : Option Nat} {v : Nat}
    (hne : data ≠ []) (hpi : parseInternal data r = (.ok v, rem)) :
    parseOuterF (f + 1) data r = parseOuterF f rem (some v) := by
  rcases data with _ | ⟨c, rest⟩
  · exact absurd rfl hne
  · simp only [parseOuterF, hpi]

theorem outer_step_err {f : Nat} {data rem : List Char} {r : Option Nat} {e : ParseError}
    (hne : data ≠ []) (hpi : parseInternal data r = (.error e, rem)) :
    parseOuterF (f + 1) data r = .error e := by
  rcases data with _ | ⟨c, rest⟩
  · exact absurd rfl hne
  · simp only [parseOuterF, hpi]

/-- When the pre-scan balance check passes, `parse` runs the outer loop. -/
theorem parse_eq_outer {l : List Char}
    (h : (l.filter (fun c => c = OPCODE_OPEN)).length
       = (l.filter (fun c => c = OPCODE_CLOSE)).length) :
    parse (String.mk l) = parseOuterF (l.length + 1) l none := by
  have hdata : (String.mk l).data = l := rfl
  simp only [parse, Parser.parse, hdata, h]
  rw [if_neg (by omega), if_neg (by omega)]

/-- A complete single-frame run: if the balance pre-scan passes and the first
`parse_internal` call consumes the entire input with result `v`, then `parse`
returns `v`. -/
theorem parse_of_single {l : List Char} {v : Nat}
    (hbal : (l.filter (fun c => c = OPCODE_OPEN)).length
          = (l.filter (fun c => c = OPCODE_CLOSE)).length)
    (hne : l ≠ [])
    (hloop : parseLoopF (l.length + 1) l .FirstOperand none [] none = (.ok v, [])) :
    parse (String.mk l) = .ok v := by
  rw [parse_eq_outer hbal]
  rw [outer_step hne hloop]
  exact outer_nil_some _ _



/-! ## Balance pre-scan facts for rendered expressions -/

theorem renderOps_chars : ∀ (ops : List (Char × Nat)), (∀ p ∈ ops, isArithCode p.1 = true) →
    ∀ c ∈ renderOps ops, isArithCode c = true ∨ c.isDigit = true := by
  intro ops
  induction ops with
  | nil => intro _ c hc; simp [renderOps] at hc
  | cons p tl ih =>
    rcases p with ⟨cd, n⟩
    intro hops c hc
    simp only [renderOps, List.mem_cons, List.mem_append] at hc
    rcases hc with rfl | h | h
    · exact Or.inl (hops (c, n) (List.mem_cons_self _ _))
    · exact Or.inr (renderNum_digits n c h)
    · exact ih (fun q hq => hops q (List.mem_cons_of_mem _ hq)) c h

theorem filter_open_nil {l : List Char}
    (h : ∀ c ∈ l, isArithCode c = true ∨ c.isDigit = true) :
    l.filter (fun c => c = OPCODE_OPEN) = [] := by
  rw [List.filter_eq_nil_iff]
  intro c hc
  simp only [decide_eq_true_eq]
  rcases h c hc with ha | hd
  · exact arith_ne_open ha
  · exact digit_ne_open hd

theorem filter_close_nil {l : List Char}
    (h : ∀ c ∈ l, isArithCode c = true ∨ c.isDigit = true) :
    l.filter (fun c => c = OPCODE_CLOSE) = [] := by
  rw [List.filter_eq_nil_iff]
  intro c hc
  simp only [decide_eq_true_eq]
  rcases h c hc with ha | hd
  · exact arith_ne_close ha
  · exact digit_ne_close hd

theorem balance_of_no_group {l : List Char}
    (h : ∀ c ∈ l, isArithCode c = true ∨ c.isDigit = true) :
    (l.filter (fun c => c = OPCODE_OPEN)).length
      = (l.filter (fun c => c = OPCODE_CLOSE)).length := by
  rw [filter_open_nil h, filter_close_nil h]

/-- An expression consisting of group-free characters around exactly one
group-open/group-close pair passes the balance pre-scan. -/
theorem balance_one_group {pre mid : List Char}
    (hpre : ∀ x ∈ pre, isArithCode x = true ∨ x.isDigit = true)
    (hmid : ∀ x ∈ mid, isArithCode x = true ∨ x.isDigit = true) :
    ((pre ++ (OPCODE_OPEN :: (mid ++ [OPCODE_CLOSE]))).filter
        (fun c => c = OPCODE_OPEN)).length
      = ((pre ++ (OPCODE_OPEN :: (mid ++ [OPCODE_CLOSE]))).filter
        (fun c => c = OPCODE_CLOSE)).length := by
  have d1 : (decide (OPCODE_OPEN = OPCODE_OPEN)) = true := by decide
  have d2 : (decide (OPCODE_CLOSE = OPCODE_OPEN)) = false := by decide
  have d3 : (decide (OPCODE_OPEN = OPCODE_CLOSE)) = false := by decide
  have d4 : (decide (OPCODE_CLOSE = OPCODE_CLOSE)) = true := by decide
  simp [List.filter_append, List.filter_cons, filter_open_nil hpre, filter_open_nil hmid,
    filter_close_nil hpre, filter_close_nil hmid, d1, d2, d3, d4]

theorem groupless_chars {n0 : Nat} {ops : List (Char × Nat)}
    (hops : ∀ p ∈ ops, isArithCode p.1 = true) :
    ∀ c ∈ renderNum n0 ++ renderOps ops, isArithCode c = true ∨ c.isDigit = true := by
  intro c hc
  rcases List.mem_append.mp hc with h | h
  · exact Or.inr (renderNum_digits n0 c h)
  · exact renderOps_chars ops hops c h

/-! ## Claim theorems -/

/-- C1: For every well-formed expression containing no group symbols (a
canonically rendered first operand followed by operator-code/operand pairs),
`parse` evaluates strictly left-to-right with no operator precedence,
returning the left fold of the successive operations over the operands; in
particular `parse "3a2c4" = Ok 20`, `parse "32a2d2" = Ok 17`, and
`parse "500a10b66c32" = Ok 14208`. -/
theorem c1_groupless_left_to_right :
    ∀ (n0 : Nat) (ops : List (Char × Nat)) (v : Nat),
    n0 ≤ USIZE_MAX →
    (∀ p ∈ ops, isArithCode p.1 = true ∧ p.2 ≤ USIZE_MAX) →
    evalFold n0 ops = .ok v →
    parse (String.mk (renderNum n0 ++ renderOps ops)) = .ok v
      ∧ parse "3a2c4" = .ok 20
      ∧ parse "32a2d2" = .ok 17
      ∧ parse "500a10b66c32" = .ok 14208 := by
  intro n0 ops v h0 hops hfold
  refine ⟨?_, rfl, rfl, rfl⟩
  apply parse_of_single
  · exact balance_of_no_group (groupless_chars (fun p hp => (hops p hp).1))
  · intro h
    exact renderNum_ne_nil n0 (List.append_eq_nil.mp h).1
  · rw [show (renderNum n0 ++ renderOps ops).length + 1
        = (renderNum n0).length + ((renderOps ops).length + 1) by
      simp only [List.length_append, List.length_cons, List.length_nil]
      omega]
    rw [scanFO (renderNum n0) (renderNum_ne_nil n0) [] (renderOps ops) none none
      ((renderOps ops).length + 1) (by simp) (renderNum_digits n0)
      (by rw [List.nil_append, digitsToNat_renderNum]; exact h0)]
    rw [List.nil_append, digitsToNat_renderNum]
    obtain ⟨s2, o2, acc2, hs2, heq⟩ := parseChain ops .FirstOperand none (renderNum n0) []
      n0 v 1 (Or.inl rfl) hops hfold
    rw [List.append_nil] at heq
    rw [heq]
    exact loop_nil_some 1 s2 o2 acc2 v

/-- Witness for C1 at `n0 = 3`, `ops = [(add, 2), (mul, 4)]`. -/
theorem c1_witness :
    (3 ≤ USIZE_MAX
      ∧ (∀ p ∈ [(OPCODE_ADD, 2), (OPCODE_MUL, 4)], isArithCode p.1 = true ∧ p.2 ≤ USIZE_MAX)
      ∧ evalFold 3 [(OPCODE_ADD, 2), (OPCODE_MUL, 4)] = .ok 20)
    ∧ (parse (String.mk (renderNum 3 ++ renderOps [(OPCODE_ADD, 2), (OPCODE_MUL, 4)])) = .ok 20
      ∧ parse "3a2c4" = .ok 20
      ∧ parse "32a2d2" = .ok 17
      ∧ parse "500a10b66c32" = .ok 14208) :=
  ⟨⟨by decide, by decide, rfl⟩,
    c1_groupless_left_to_right 3 [(OPCODE_ADD, 2), (OPCODE_MUL, 4)] 20
      (by decide) (by decide) rfl⟩



/-- Running a whole group body (canonical groupless chain closed by the
group-close symbol) in a fresh frame: the frame consumes the body and the
close, returning the fold value of the body. -/
theorem loop_group_body : ∀ (m0 : Nat) (ops2 : List (Char × Nat)) (w : Nat)
    (r : Option Nat) (f : Nat),
    m0 ≤ USIZE_MAX →
    (∀ p ∈ ops2, isArithCode p.1 = true ∧ p.2 ≤ USIZE_MAX) →
    evalFold m0 ops2 = .ok w →
    parseLoopF ((renderNum m0).length + ((renderOps ops2).length + (f + 2)))
      (renderNum m0 ++ (renderOps ops2 ++ [OPCODE_CLOSE])) .FirstOperand none [] r
      = (.ok w, []) := by
  intro m0 ops2 w r f hm hops2 hfold
  rw [scanFO (renderNum m0) (renderNum_ne_nil m0) [] (renderOps ops2 ++ [OPCODE_CLOSE]) none r
    ((renderOps ops2).length + (f + 2)) (by simp) (renderNum_digits m0)
    (by rw [List.nil_append, digitsToNat_renderNum]; exact hm)]
  rw [List.nil_append, digitsToNat_renderNum]
  obtain ⟨s2, o2, acc2, hs2, heq⟩ := parseChain ops2 .FirstOperand none (renderNum m0)
    [OPCODE_CLOSE] m0 w (f + 2) (Or.inl rfl) hops2 hfold
  rw [heq]
  rw [show f + 2 = (f + 1) + 1 by omega]
  exact step_close (f + 1) [] acc2 o2 w hs2

/-- C9: a well-formed groupless expression followed by one trailing operator
code with no second operand after it parses successfully to the running
result computed before the trailing operator; the dangling operator is
silently ignored.  In particular `parse "3a" = Ok 3`. -/
theorem c9_trailing_operator_ignored :
    ∀ (n0 : Nat) (ops : List (Char × Nat)) (v : Nat) (c : Char),
    n0 ≤ USIZE_MAX →
    (∀ p ∈ ops, isArithCode p.1 = true ∧ p.2 ≤ USIZE_MAX) →
    evalFold n0 ops = .ok v →
    isArithCode c = true →
    parse (String.mk (renderNum n0 ++ (renderOps ops ++ [c]))) = .ok v
      ∧ parse "3a" = .ok 3 := by
  intro n0 ops v c h0 hops hfold hc
  refine ⟨?_, rfl⟩
  apply parse_of_single
  · apply balance_of_no_group
    intro x hx
    rcases List.mem_append.mp hx with h | h
    · exact Or.inr (renderNum_digits n0 x h)
    · rcases List.mem_append.mp h with h | h
      · exact renderOps_chars ops (fun p hp => (hops p hp).1) x h
      · simp only [List.mem_singleton] at h
        subst h
        exact Or.inl hc
  · intro h
    exact renderNum_ne_nil n0 (List.append_eq_nil.mp h).1
  · rw [show (renderNum n0 ++ (renderOps ops ++ [c])).length + 1
        = (renderNum n0).length + ((renderOps ops).length + 2) by
      simp only [List.length_append, List.length_cons, List.length_nil]
      omega]
    rw [scanFO (renderNum n0) (renderNum_ne_nil n0) [] (renderOps ops ++ [c]) none none
      ((renderOps ops).length + 2) (by simp) (renderNum_digits n0)
      (by rw [List.nil_append, digitsToNat_renderNum]; exact h0)]
    rw [List.nil_append, digitsToNat_renderNum]
    obtain ⟨s2, o2, acc2, hs2, heq⟩ := parseChain ops .FirstOperand none (renderNum n0)
      [c] n0 v 2 (Or.inl rfl) hops hfold
    rw [heq]
    obtain ⟨op, hop⟩ := fromResult_arith v hc
    rw [show (2 : Nat) = 1 + 1 from rfl]
    rw [step_arith 1 [] acc2 o2 hs2 hc hop]
    exact loop_nil_some 1 .Operation (some op) [] v

/-- Witness for C9 at `n0 = 3`, no chain, trailing add code. -/
theorem c9_witness :
    (3 ≤ USIZE_MAX
      ∧ (∀ p ∈ ([] : List (Char × Nat)), isArithCode p.1 = true ∧ p.2 ≤ USIZE_MAX)
      ∧ evalFold 3 [] = .ok 3 ∧ isArithCode OPCODE_ADD = true)
    ∧ (parse (String.mk (renderNum 3 ++ (renderOps [] ++ [OPCODE_ADD]))) = .ok 3
      ∧ parse "3a" = .ok 3) :=
  ⟨⟨by decide, by decide, rfl, by decide⟩,
    c9_trailing_operator_ignored 3 [] 3 OPCODE_ADD (by decide) (by decide) rfl (by decide)⟩

/-- C2: a group's body is evaluated to completion first and its value is then
folded into the enclosing frame, either as the second operand of the pending
operation or as the frame's value when no operation is pending; in
particular `parse "3ae4c66fb32" = Ok 235`. -/
theorem c2_group_evaluated_first :
    ∀ (n0 m0 : Nat) (ops1 ops2 : List (Char × Nat)) (c : Char) (v w u : Nat) (op : Operation),
    n0 ≤ USIZE_MAX → m0 ≤ USIZE_MAX →
    (∀ p ∈ ops1, isArithCode p.1 = true ∧ p.2 ≤ USIZE_MAX) →
    (∀ p ∈ ops2, isArithCode p.1 = true ∧ p.2 ≤ USIZE_MAX) →
    isArithCode c = true →
    evalFold n0 ops1 = .ok v →
    evalFold m0 ops2 = .ok w →
    Operation.fromResult c v = .ok op →
    op.applyResult w = .ok u →
    (parse (String.mk (renderNum n0 ++ (renderOps ops1 ++ (c :: (OPCODE_OPEN ::
        (renderNum m0 ++ (renderOps ops2 ++ [OPCODE_CLOSE]))))))) = .ok u)
    ∧ (parse (String.mk (OPCODE_OPEN ::
        (renderNum m0 ++ (renderOps ops2 ++ [OPCODE_CLOSE])))) = .ok w)
    ∧ parse "3ae4c66fb32" = .ok 235 := by
  intro n0 m0 ops1 ops2 c v w u op hn hm hops1 hops2 hc hfold1 hfold2 hop hap
  have hmid : ∀ x ∈ renderNum m0 ++ renderOps ops2,
      isArithCode x = true ∨ x.isDigit = true :=
    groupless_chars (fun p hp => (hops2 p hp).1)
  refine ⟨?_, ?_, rfl⟩
  · apply parse_of_single
    · rw [show renderNum n0 ++ (renderOps ops1 ++ (c :: (OPCODE_OPEN ::
          (renderNum m0 ++ (renderOps ops2 ++ [OPCODE_CLOSE])))))
        = (renderNum n0 ++ (renderOps ops1 ++ [c])) ++ (OPCODE_OPEN ::
          ((renderNum m0 ++ renderOps ops2) ++ [OPCODE_CLOSE])) by simp]
      apply balance_one_group
      · intro x hx
        rcases List.mem_append.mp hx with h | h
        · exact Or.inr (renderNum_digits n0 x h)
        · rcases List.mem_append.mp h with h | h
          · exact renderOps_chars ops1 (fun p hp => (hops1 p hp).1) x h
          · simp only [List.mem_singleton] at h
            subst h
            exact Or.inl hc
      · exact hmid
    · intro h
      exact renderNum_ne_nil n0 (List.append_eq_nil.mp h).1
    · rw [show (renderNum n0 ++ (renderOps ops1 ++ (c :: (OPCODE_OPEN ::
          (renderNum m0 ++ (renderOps ops2 ++ [OPCODE_CLOSE])))))).length + 1
        = (renderNum n0).length + ((renderOps ops1).length +
            (((renderNum m0).length + ((renderOps ops2).length + (0 + 2))) + 2)) by
        simp [List.length_append]
        omega]
      rw [scanFO (renderNum n0) (renderNum_ne_nil n0) []
        (renderOps ops1 ++ (c :: (OPCODE_OPEN ::
          (renderNum m0 ++ (renderOps ops2 ++ [OPCODE_CLOSE]))))) none none
        ((renderOps ops1).length +
          (((renderNum m0).length + ((renderOps ops2).length + (0 + 2))) + 2))
        (by simp) (renderNum_digits n0)
        (by rw [List.nil_append, digitsToNat_renderNum]; exact hn)]
      rw [List.nil_append, digitsToNat_renderNum]
      obtain ⟨s2, o2, acc2, hs2, heq⟩ := parseChain ops1 .FirstOperand none (renderNum n0)
        (c :: (OPCODE_OPEN :: (renderNum m0 ++ (renderOps ops2 ++ [OPCODE_CLOSE]))))
        n0 v (((renderNum m0).length + ((renderOps ops2).length + (0 + 2))) + 2)
        (Or.inl rfl) hops1 hfold1
      rw [heq]
      rw [show ((renderNum m0).length + ((renderOps ops2).length + (0 + 2))) + 2
        = ((((renderNum m0).length + ((renderOps ops2).length + (0 + 2))) + 1) + 1) by omega]
      rw [step_arith (((renderNum m0).length + ((renderOps ops2).length + (0 + 2))) + 1)
        (OPCODE_OPEN :: (renderNum m0 ++ (renderOps ops2 ++ [OPCODE_CLOSE])))
        acc2 o2 hs2 hc hop]
      exact step_open_some_ret _ _ _ _ (cs_open_Op [])
        (loop_group_body m0 ops2 w (some v) 0 hm hops2 hfold2) hap
  · apply parse_of_single
    · rw [show OPCODE_OPEN :: (renderNum m0 ++ (renderOps ops2 ++ [OPCODE_CLOSE]))
        = ([] : List Char) ++ (OPCODE_OPEN ::
          ((renderNum m0 ++ renderOps ops2) ++ [OPCODE_CLOSE])) by simp]
      exact balance_one_group (by intro x hx; simp at hx) hmid
    · simp
    · rw [show (OPCODE_OPEN ::
          (renderNum m0 ++ (renderOps ops2 ++ [OPCODE_CLOSE]))).length + 1
        = ((renderNum m0).length + ((renderOps ops2).length + (0 + 2))) + 1 by
        simp [List.length_append]
        omega]
      exact step_open_none_ret _ _ _ _ (cs_open_FO [])
        (loop_group_body m0 ops2 w none 0 hm hops2 hfold2)

/-- Witness for C2: `3 + (4 × 66)` as rendered expression, and the bare
group `(4 × 66)`. -/
theorem c2_witness :
    (3 ≤ USIZE_MAX ∧ 4 ≤ USIZE_MAX
      ∧ (∀ p ∈ ([] : List (Char × Nat)), isArithCode p.1 = true ∧ p.2 ≤ USIZE_MAX)
      ∧ (∀ p ∈ [(OPCODE_MUL, 66)], isArithCode p.1 = true ∧ p.2 ≤ USIZE_MAX)
      ∧ isArithCode OPCODE_ADD = true
      ∧ evalFold 3 [] = .ok 3
      ∧ evalFold 4 [(OPCODE_MUL, 66)] = .ok 264
      ∧ Operation.fromResult OPCODE_ADD 3 = .ok (.Add 3)
      ∧ (Operation.Add 3).applyResult 264 = .ok 267)
    ∧ ((parse (String.mk (renderNum 3 ++ (renderOps [] ++ (OPCODE_ADD :: (OPCODE_OPEN ::
          (renderNum 4 ++ (renderOps [(OPCODE_MUL, 66)] ++ [OPCODE_CLOSE]))))))) = .ok 267)
      ∧ (parse (String.mk (OPCODE_OPEN ::
          (renderNum 4 ++ (renderOps [(OPCODE_MUL, 66)] ++ [OPCODE_CLOSE])))) = .ok 264)
      ∧ parse "3ae4c66fb32" = .ok 235) :=
  ⟨⟨by decide, by decide, by decide, by decide, by decide, rfl, rfl, rfl, rfl⟩,
    c2_group_evaluated_first 3 4 [] [(OPCODE_MUL, 66)] OPCODE_ADD 3 264 267 (.Add 3)
      (by decide) (by decide) (by decide) (by decide) (by decide) rfl rfl rfl rfl⟩



/-- C5 counterexample: a group whose body never produces an operand does not
fail: `"2ef"` parses to `Ok 2` — the empty group evaluates to the running
result taken from the enclosing frame. -/
theorem c5_counterexample : parse "2ef" = .ok 2 := rfl

/-- C5 (amended): every frame starts with a fresh state, accumulator and
operation, but the running result IS passed into the recursive frame
(`parse_internal(data, result)`); a group with an empty body therefore
evaluates to the enclosing frame's running result rather than failing. -/
theorem c5_amended_result_inherited :
    ∀ n : Nat, n ≤ USIZE_MAX →
    parse (String.mk (renderNum n ++ [OPCODE_OPEN, OPCODE_CLOSE])) = .ok n := by
  intro n hn
  apply parse_of_single
  · rw [show renderNum n ++ [OPCODE_OPEN, OPCODE_CLOSE]
      = renderNum n ++ (OPCODE_OPEN :: (([] : List Char) ++ [OPCODE_CLOSE])) by simp]
    exact balance_one_group (fun x hx => Or.inr (renderNum_digits n x hx))
      (by intro x hx; simp at hx)
  · intro h
    exact renderNum_ne_nil n (List.append_eq_nil.mp h).1
  · rw [show (renderNum n ++ [OPCODE_OPEN, OPCODE_CLOSE]).length + 1
      = (renderNum n).length + 3 by simp [List.length_append]]
    rw [show ([OPCODE_OPEN, OPCODE_CLOSE] : List Char)
      = OPCODE_OPEN :: [OPCODE_CLOSE] from rfl]
    rw [scanFO (renderNum n) (renderNum_ne_nil n) [] (OPCODE_OPEN :: [OPCODE_CLOSE])
      none none 3 (by simp) (renderNum_digits n)
      (by rw [List.nil_append, digitsToNat_renderNum]; exact hn)]
    rw [List.nil_append, digitsToNat_renderNum]
    rw [show (3 : Nat) = 2 + 1 from rfl]
    apply step_open_none_ret 2 [OPCODE_CLOSE] (renderNum n) (some n)
      (cs_open_FO (renderNum n))
    rw [show (2 : Nat) = 1 + 1 from rfl]
    exact step_close 1 [] [] none n (Or.inl rfl)

/-- Witness for C5 (amended) at `n = 2`. -/
theorem c5_witness :
    2 ≤ USIZE_MAX
      ∧ parse (String.mk (renderNum 2 ++ [OPCODE_OPEN, OPCODE_CLOSE])) = .ok 2 :=
  ⟨by decide, c5_amended_result_inherited 2 (by decide)⟩

/-- C6 counterexample: `"2f3e"` has equal open/close counts and a close with
no pending open, yet `parse` returns a result (`Ok 3`), not an
`UnbalancedParenthesis` error. -/
theorem c6_counterexample : parse "2f3e" = .ok 3 := rfl

/-- C6 (amended): when the global open/close counts are equal, a group-close
with no matching pending open is not an error: the current frame returns its
running result at the close and the top-level loop resumes scanning after
it.  `UnbalancedParenthesis` arises only when the global counts differ. -/
theorem c6_amended_close_returns_frame :
    ∀ n m : Nat, n ≤ USIZE_MAX → m ≤ USIZE_MAX →
    parse (String.mk (renderNum n ++ (OPCODE_CLOSE :: (renderNum m ++ [OPCODE_OPEN]))))
      = .ok m := by
  intro n m hn hm
  have e1 : (renderNum n).filter (fun c => c = OPCODE_OPEN) = [] :=
    filter_open_nil (fun c hc => Or.inr (renderNum_digits n c hc))
  have e2 : (renderNum m).filter (fun c => c = OPCODE_OPEN) = [] :=
    filter_open_nil (fun c hc => Or.inr (renderNum_digits m c hc))
  have e3 : (renderNum n).filter (fun c => c = OPCODE_CLOSE) = [] :=
    filter_close_nil (fun c hc => Or.inr (renderNum_digits n c hc))
  have e4 : (renderNum m).filter (fun c => c = OPCODE_CLOSE) = [] :=
    filter_close_nil (fun c hc => Or.inr (renderNum_digits m c hc))
  have d1 : (decide (OPCODE_OPEN = OPCODE_OPEN)) = true := by decide
  have d2 : (decide (OPCODE_CLOSE = OPCODE_OPEN)) = false := by decide
  have d3 : (decide (OPCODE_OPEN = OPCODE_CLOSE)) = false := by decide
  have d4 : (decide (OPCODE_CLOSE = OPCODE_CLOSE)) = true := by decide
  have hbal : ((renderNum n ++ (OPCODE_CLOSE :: (renderNum m ++ [OPCODE_OPEN]))).filter
        (fun c => c = OPCODE_OPEN)).length
      = ((renderNum n ++ (OPCODE_CLOSE :: (renderNum m ++ [OPCODE_OPEN]))).filter
        (fun c => c = OPCODE_CLOSE)).length := by
    simp [List.filter_append, List.filter_cons, e1, e2, e3, e4, d1, d2, d3, d4]
  rw [parse_eq_outer hbal]
  have h1 : parseInternal (renderNum n ++ (OPCODE_CLOSE :: (renderNum m ++ [OPCODE_OPEN])))
      none = (.ok n, renderNum m ++ [OPCODE_OPEN]) := by
    rw [show parseInternal (renderNum n ++ (OPCODE_CLOSE :: (renderNum m ++ [OPCODE_OPEN])))
        none
      = parseLoopF ((renderNum n ++ (OPCODE_CLOSE ::
          (renderNum m ++ [OPCODE_OPEN]))).length + 1)
        (renderNum n ++ (OPCODE_CLOSE :: (renderNum m ++ [OPCODE_OPEN])))
        .FirstOperand none [] none from rfl]
    rw [show (renderNum n ++ (OPCODE_CLOSE :: (renderNum m ++ [OPCODE_OPEN]))).length + 1
      = (renderNum n).length + ((renderNum m).length + 3) by
      simp only [List.length_append, List.length_cons, List.length_nil]
      omega]
    rw [scanFO (renderNum n) (renderNum_ne_nil n) []
      (OPCODE_CLOSE :: (renderNum m ++ [OPCODE_OPEN])) none none
      ((renderNum m).length + 3) (by simp) (renderNum_digits n)
      (by rw [List.nil_append, digitsToNat_renderNum]; exact hn)]
    rw [List.nil_append, digitsToNat_renderNum]
    rw [show (renderNum m).length + 3 = ((renderNum m).length + 2) + 1 by omega]
    exact step_close ((renderNum m).length + 2) (renderNum m ++ [OPCODE_OPEN])
      (renderNum n) none n (Or.inl rfl)
  rw [outer_step (by
      intro h
      exact renderNum_ne_nil n (List.append_eq_nil.mp h).1) h1]
  have h2 : parseInternal (renderNum m ++ [OPCODE_OPEN]) (some n) = (.ok m, []) := by
    rw [show parseInternal (renderNum m ++ [OPCODE_OPEN]) (some n)
      = parseLoopF ((renderNum m ++ [OPCODE_OPEN]).length + 1)
        (renderNum m ++ [OPCODE_OPEN]) .FirstOperand none [] (some n) from rfl]
    rw [show (renderNum m ++ [OPCODE_OPEN]).length + 1 = (renderNum m).length + 2 by
      simp [List.length_append]]
    rw [scanFO (renderNum m) (renderNum_ne_nil m) [] [OPCODE_OPEN] none (some n) 2
      (by simp) (renderNum_digits m)
      (by rw [List.nil_append, digitsToNat_renderNum]; exact hm)]
    rw [List.nil_append, digitsToNat_renderNum]
    rw [show (2 : Nat) = 1 + 1 from rfl]
    exact step_open_none_ret 1 [] (renderNum m) (some m) (cs_open_FO (renderNum m))
      (loop_nil_some 0 .FirstOperand none [] m)
  rw [show (renderNum n ++ (OPCODE_CLOSE :: (renderNum m ++ [OPCODE_OPEN]))).length
      = ((renderNum n).length + ((renderNum m).length + 1)) + 1 by
    simp only [List.length_append, List.length_cons, List.length_nil]
    omega]
  rw [outer_step (by
      intro h
      exact renderNum_ne_nil m (List.append_eq_nil.mp h).1) h2]
  exact outer_nil_some _ _

/-- Witness for C6 (amended) at `n = 2`, `m = 3` (the input `"2f3e"`). -/
theorem c6_witness :
    (2 ≤ USIZE_MAX ∧ 3 ≤ USIZE_MAX)
      ∧ parse (String.mk (renderNum 2 ++ (OPCODE_CLOSE :: (renderNum 3 ++ [OPCODE_OPEN]))))
          = .ok 3 :=
  ⟨⟨by decide, by decide⟩, c6_amended_close_returns_frame 2 3 (by decide) (by decide)⟩

/-- C7: the pre-scan balance check runs before any state-machine execution:
whenever the total count of group-open symbols differs from the count of
group-close symbols, `parse` returns `UnbalancedParenthesis` naming the
symbol in excess, for every input (also inputs whose other symbols are
invalid). -/
theorem c7_prescan_balance (s : String) :
    ((s.data.filter (fun c => c = OPCODE_CLOSE)).length
        < (s.data.filter (fun c => c = OPCODE_OPEN)).length →
      parse s = .error (.UnbalancedParenthesis (String.mk [OPCODE_OPEN])))
    ∧ ((s.data.filter (fun c => c = OPCODE_OPEN)).length
        < (s.data.filter (fun c => c = OPCODE_CLOSE)).length →
      parse s = .error (.UnbalancedParenthesis (String.mk [OPCODE_CLOSE]))) := by
  constructor
  · intro h
    simp only [parse, Parser.parse]
    rw [if_pos h]
  · intro h
    simp only [parse, Parser.parse]
    rw [if_neg (by omega), if_pos h]

/-- Witness for C7: surplus open (`"3aee2fc4"`), surplus close
(`"3aee2fffc4"`), and an input with invalid symbols (`"zze"`). -/
theorem c7_witness :
    (parse "3aee2fc4" = .error (.UnbalancedParenthesis (String.mk [OPCODE_OPEN]))
      ∧ parse "3aee2fffc4" = .error (.UnbalancedParenthesis (String.mk [OPCODE_CLOSE])))
    ∧ parse "zze" = .error (.UnbalancedParenthesis (String.mk [OPCODE_OPEN])) :=
  ⟨⟨(c7_prescan_balance "3aee2fc4").1 (by decide),
    (c7_prescan_balance "3aee2fffc4").2 (by decide)⟩,
    (c7_prescan_balance "zze").1 (by decide)⟩

/-- C3: `apply_result` fails with `OverflowError` exactly when addition or
multiplication overflow `usize`, subtraction would go below zero, or the
divisor is zero; otherwise it returns `Ok` of the exact result, with
division truncating (toward zero, values being non-negative). -/
theorem c3_apply_result_checked (op : Operation) (b : Nat) :
    (op.applyResult b = .error .OverflowError ↔
      (∃ a, op = .Add a ∧ USIZE_MAX < a + b) ∨
      (∃ a, op = .Sub a ∧ a < b) ∨
      (∃ a, op = .Mul a ∧ USIZE_MAX < a * b) ∨
      (∃ a, op = .Div a ∧ b = 0))
    ∧ (∀ a, op = .Add a → a + b ≤ USIZE_MAX → op.applyResult b = .ok (a + b))
    ∧ (∀ a, op = .Sub a → b ≤ a → op.applyResult b = .ok (a - b))
    ∧ (∀ a, op = .Mul a → a * b ≤ USIZE_MAX → op.applyResult b = .ok (a * b))
    ∧ (∀ a, op = .Div a → b ≠ 0 → op.applyResult b = .ok (a / b)) := by
  refine ⟨?_, ?_, ?_, ?_, ?_⟩
  · cases op with
    | Add a =>
      rw [applyResult_Add]
      by_cases h : a + b ≤ USIZE_MAX
      · rw [if_pos h]
        constructor
        · intro hh; exact absurd hh (by simp)
        · rintro (⟨a1, ha, hgt⟩ | ⟨a1, ha, hgt⟩ | ⟨a1, ha, hgt⟩ | ⟨a1, ha, hgt⟩)
          · cases ha; omega
          all_goals exact Operation.noConfusion ha
      · rw [if_neg h]
        constructor
        · intro _; exact Or.inl ⟨a, rfl, by omega⟩
        · intro _; rfl
    | Sub a =>
      rw [applyResult_Sub]
      by_cases h : b ≤ a
      · rw [if_pos h]
        constructor
        · intro hh; exact absurd hh (by simp)
        · rintro (⟨a1, ha, hgt⟩ | ⟨a1, ha, hgt⟩ | ⟨a1, ha, hgt⟩ | ⟨a1, ha, hgt⟩)
          · exact Operation.noConfusion ha
          · cases ha; omega
          all_goals exact Operation.noConfusion ha
      · rw [if_neg h]
        constructor
        · intro _; exact Or.inr (Or.inl ⟨a, rfl, by omega⟩)
        · intro _; rfl
    | Mul a =>
      rw [applyResult_Mul]
      by_cases h : a * b ≤ USIZE_MAX
      · rw [if_pos h]
        constructor
        · intro hh; exact absurd hh (by simp)
        · rintro (⟨a1, ha, hgt⟩ | ⟨a1, ha, hgt⟩ | ⟨a1, ha, hgt⟩ | ⟨a1, ha, hgt⟩)
          · exact Operation.noConfusion ha
          · exact Operation.noConfusion ha
          · cases ha; omega
          · exact Operation.noConfusion ha
      · rw [if_neg h]
        constructor
        · intro _; exact Or.inr (Or.inr (Or.inl ⟨a, rfl, by omega⟩))
        · intro _; rfl
    | Div a =>
      rw [applyResult_Div]
      by_cases h : b = 0
      · rw [if_pos h]
        constructor
        · intro _; exact Or.inr (Or.inr (Or.inr ⟨a, rfl, h⟩))
        · intro _; rfl
      · rw [if_neg h]
        constructor
        · intro hh; exact absurd hh (by simp)
        · rintro (⟨a1, ha, hgt⟩ | ⟨a1, ha, hgt⟩ | ⟨a1, ha, hgt⟩ | ⟨a1, ha, hgt⟩)
          · exact Operation.noConfusion ha
          · exact Operation.noConfusion ha
          · exact Operation.noConfusion ha
          · cases ha; exact absurd hgt h
  · rintro a rfl h
    rw [applyResult_Add, if_pos h]
  · rintro a rfl h
    rw [applyResult_Sub, if_pos h]
  · rintro a rfl h
    rw [applyResult_Mul, if_pos h]
  · rintro a rfl h
    rw [applyResult_Div, if_neg h]

/-- Witness for C3: successful addition, failing subtraction (below zero),
division by zero failing, and truncating division. -/
theorem c3_witness :
    ((Operation.Add 1).applyResult 2 = .ok 3)
    ∧ ((Operation.Sub 5).applyResult 7 = .error .OverflowError)
    ∧ ((Operation.Div 4).applyResult 0 = .error .OverflowError)
    ∧ ((Operation.Div 7).applyResult 2 = .ok 3) :=
  ⟨(c3_apply_result_checked (.Add 1) 2).2.1 1 rfl (by decide),
   (c3_apply_result_checked (.Sub 5) 7).1.mpr (Or.inr (Or.inl ⟨5, rfl, by omega⟩)),
   (c3_apply_result_checked (.Div 4) 0).1.mpr (Or.inr (Or.inr (Or.inr ⟨4, rfl, rfl⟩))),
   (c3_apply_result_checked (.Div 7) 2).2.2.2.2 7 rfl (by decide)⟩



theorem apply_mk_err {op : Operation} {l : List Char} {e : OperationError}
    (h1 : parseUsize l = .ok (digitsToNat l))
    (h2 : op.applyResult (digitsToNat l) = .error e) :
    op.apply (String.mk l) = .error e := by
  unfold Operation.apply
  rw [show (String.mk l).data = l from rfl, h1]
  exact h2

/-- C8: numeric overflow at the lexical stage and at the arithmetic stage
are distinguishable error kinds.  A digit run overshooting `usize` while
scanned as a first operand yields `ParseDigitError` carrying the accumulator
text, whereas an in-range second operand whose application overflows yields
`InvalidOperation` wrapping `OverflowError`; the repository's own overflow
examples evaluate accordingly. -/
theorem c8_lexical_vs_arithmetic_overflow :
    (∀ (f : Nat) (rest acc a1 : List Char) (c : Char) (s : ParserState)
       (o : Option Operation) (r : Option Nat),
      computeState s c acc = .ok (.FirstOperand, a1) → c.isDigit = true →
      (∀ x ∈ a1 ++ [c], x.isDigit = true) → USIZE_MAX < digitsToNat (a1 ++ [c]) →
      parseLoopF (f + 1) (c :: rest) s o acc r
        = (.error (.ParseDigitError (String.mk (a1 ++ [c]))
            "number too large to fit in target type"), rest))
    ∧ (∀ (f : Nat) (rest acc a1 : List Char) (c : Char) (s : ParserState)
       (op : Operation) (r : Option Nat),
      computeState s c acc = .ok (.SecondOperand, a1) → c.isDigit = true →
      (∀ x ∈ a1 ++ [c], x.isDigit = true) → digitsToNat (a1 ++ [c]) ≤ USIZE_MAX →
      op.applyResult (digitsToNat (a1 ++ [c])) = .error .OverflowError →
      parseLoopF (f + 1) (c :: rest) s (some op) acc r
        = (.error (.InvalidOperation .OverflowError), rest))
    ∧ parse "99999999999999999999999999c9"
        = .error (.ParseDigitError "99999999999999999999"
            "number too large to fit in target type")
    ∧ parse "9c99999999999999999999999999"
        = .error (.InvalidOperation .OverflowError) := by
  refine ⟨?_, ?_, rfl, rfl⟩
  · intro f rest acc a1 c s o r hcs hdig hall hgt
    have hp : parseUsize (a1 ++ [c]) = .error "number too large to fit in target type" :=
      parseUsize_err_of (by simp) hall hgt
    simp only [parseLoopF, hcs]
    simp [hdig, hp]
  · intro f rest acc a1 c s op r hcs hdig hall hle herr
    have hpu : parseUsize (a1 ++ [c]) = .ok (digitsToNat (a1 ++ [c])) :=
      parseUsize_ok_of (by simp) hall hle
    have happ : op.apply (String.mk (a1 ++ [c])) = .error .OverflowError :=
      apply_mk_err hpu herr
    simp only [parseLoopF, hcs]
    simp [hdig, happ]

/-- Witness for C8: a 20-nine accumulator overshoots `usize` at the lexical
stage, and `Mul 9` applied to 19 nines overflows at the arithmetic stage. -/
theorem c8_witness :
    (computeState .FirstOperand '9' (List.replicate 19 '9')
        = .ok (.FirstOperand, List.replicate 19 '9')
      ∧ USIZE_MAX < digitsToNat (List.replicate 19 '9' ++ ['9'])
      ∧ parseLoopF 1 ['9'] .FirstOperand none (List.replicate 19 '9') none
        = (.error (.ParseDigitError (String.mk (List.replicate 19 '9' ++ ['9']))
            "number too large to fit in target type"), []))
    ∧ (computeState .Operation '9' (List.replicate 18 '9')
        = .ok (.SecondOperand, List.replicate 18 '9')
      ∧ (Operation.Mul 9).applyResult (digitsToNat (List.replicate 18 '9' ++ ['9']))
          = .error .OverflowError
      ∧ parseLoopF 1 ['9'] .Operation (some (.Mul 9)) (List.replicate 18 '9') none
        = (.error (.InvalidOperation .OverflowError), [])) :=
  ⟨⟨rfl, by decide,
    c8_lexical_vs_arithmetic_overflow.1 0 [] (List.replicate 19 '9')
      (List.replicate 19 '9') '9' .FirstOperand none none rfl (by decide)
      (by decide) (by decide)⟩,
   ⟨rfl, rfl,
    c8_lexical_vs_arithmetic_overflow.2.1 0 [] (List.replicate 18 '9')
      (List.replicate 18 '9') '9' .Operation (.Mul 9) none rfl (by decide)
      (by decide) (by decide) rfl⟩⟩

/-- C4 counterexample: inside `"e5b6af"` the first failure is the
underflowing application `5 - 6` (the error `parse "5b6"` surfaces), but the
value returned to the caller is a different error kind: the group sub-parse
failure is discarded because the next unconsumed symbol is an operator code,
and the subsequent operator dispatch finds no running result. -/
theorem c4_counterexample :
    parse "5b6" = .error (.InvalidOperation .OverflowError)
    ∧ parse "e5b6af"
        = .error (.IllegalState "No previous result and accumulator empty instantiating operation")
    ∧ parse "e5b6af" ≠ .error (.InvalidOperation .OverflowError) := by
  refine ⟨rfl, rfl, ?_⟩
  intro h
  rw [show parse "e5b6af"
    = .error (.IllegalState "No previous result and accumulator empty instantiating operation")
    from rfl] at h
  exact ParseError.noConfusion (Except.error.inj h)

/-- A second error-replacement scenario, this time with a pending
operation: in `"1be9fa2"` the sub-parse of the group succeeds with `9`, the
application `Sub(1).apply_result(9)` fails (the first failure), yet because
the next unconsumed symbol is the operator `a` the failure is discarded and
`IllegalState` is returned instead. -/
theorem parse_swallow_with_pending_operation :
    parse "1be9fa2"
      = .error (.IllegalState "No previous result and accumulator empty instantiating operation")
    ∧ parse "1be9f2" = .error (.InvalidOperation .OverflowError) :=
  ⟨rfl, rfl⟩

/-- C4 (amended): an error value arising during parsing is propagated
unchanged bottom-up to the caller, EXCEPT through the group-open arm's
post-return continuation: when the group arm's result `res` is an error —
either the sub-parse failed with no operation pending, or the sub-parse
succeeded and applying the pending operation to its value failed — and the
next unconsumed symbol is an arithmetic operator code, `result = res.ok()`
discards that error and the subsequent operator dispatch deterministically
returns `IllegalState("No previous result and accumulator empty
instantiating operation")`.  In every other case of the group arm the error
is returned unchanged: a failing sub-parse under a pending operation
propagates immediately via `?`, and when the next symbol is not an operator
code `res` is returned as is.  The five conjuncts below characterize all
five branches. -/
theorem c4_amended_error_replaced :
    ∀ (f : Nat) (rest acc a1 : List Char) (s s1 : ParserState) (r : Option Nat),
    computeState s OPCODE_OPEN acc = .ok (s1, a1) →
    ((∀ (e : ParseError) (h : Char) (t : List Char),
        parseLoopF (f + 1) rest .FirstOperand none [] r = (.error e, h :: t) →
        isArithCode h = true →
        parseLoopF (f + 2) (OPCODE_OPEN :: rest) s none acc r
          = (.error
              (.IllegalState "No previous result and accumulator empty instantiating operation"),
             t))
    ∧ (∀ (op : Operation) (v : Nat) (oe : OperationError) (h : Char) (t : List Char),
        parseLoopF (f + 1) rest .FirstOperand none [] r = (.ok v, h :: t) →
        op.applyResult v = .error oe →
        isArithCode h = true →
        parseLoopF (f + 2) (OPCODE_OPEN :: rest) s (some op) acc r
          = (.error
              (.IllegalState "No previous result and accumulator empty instantiating operation"),
             t))
    ∧ (∀ (e : ParseError) (rem : List Char),
        parseLoopF (f + 1) rest .FirstOperand none [] r = (.error e, rem) →
        (∀ h t, rem = h :: t → isArithCode h = false) →
        parseLoopF (f + 2) (OPCODE_OPEN :: rest) s none acc r = (.error e, rem))
    ∧ (∀ (op : Operation) (e : ParseError) (rem : List Char),
        parseLoopF (f + 1) rest .FirstOperand none [] r = (.error e, rem) →
        parseLoopF (f + 2) (OPCODE_OPEN :: rest) s (some op) acc r = (.error e, rem))
    ∧ (∀ (op : Operation) (v : Nat) (oe : OperationError) (rem : List Char),
        parseLoopF (f + 1) rest .FirstOperand none [] r = (.ok v, rem) →
        op.applyResult v = .error oe →
        (∀ h t, rem = h :: t → isArithCode h = false) →
        parseLoopF (f + 2) (OPCODE_OPEN :: rest) s (some op) acc r
          = (.error (.InvalidOperation oe), rem))) := by
  intro f rest acc a1 s s1 r hcs
  refine ⟨?_, ?_, ?_, ?_, ?_⟩
  · intro e h t hsub hh
    rw [show f + 2 = (f + 1) + 1 by omega]
    rw [step_open_err_swallow (f + 1) rest acc t r hcs hsub hh]
    exact step_arith_noresult f t a1 none (Or.inl rfl) hh
  · intro op v oe h t hsub hap hh
    rw [show f + 2 = (f + 1) + 1 by omega]
    rw [step_open_apply_err_swallow (f + 1) rest acc t r hcs hsub hap hh]
    exact step_arith_noresult f t a1 (some op) (Or.inl rfl) hh
  · intro e rem hsub hnop
    rw [show f + 2 = (f + 1) + 1 by omega]
    exact step_open_err_noswallow (f + 1) rest acc rem r hcs hsub hnop
  · intro op e rem hsub
    rw [show f + 2 = (f + 1) + 1 by omega]
    exact step_open_some_suberr (f + 1) rest acc rem r hcs hsub
  · intro op v oe rem hsub hap hnop
    rw [show f + 2 = (f + 1) + 1 by omega]
    exact step_open_apply_err_noswallow (f + 1) rest acc rem r hcs hsub hap hnop

/-- Witness for C4 (amended): both swallow branches at the concrete inputs
`"e5b6af"` (sub-parse failure, no pending operation) and `"1be9fa2"`
(application failure under the pending operation `Sub 1`). -/
theorem c4_witness :
    (computeState .FirstOperand OPCODE_OPEN [] = .ok (.FirstOperand, [])
      ∧ parseLoopF 6 ['5', 'b', '6', 'a', 'f'] .FirstOperand none [] none
          = (.error (.InvalidOperation .OverflowError), ['a', 'f'])
      ∧ isArithCode 'a' = true
      ∧ parseLoopF 7 (OPCODE_OPEN :: ['5', 'b', '6', 'a', 'f']) .FirstOperand none [] none
          = (.error
              (.IllegalState "No previous result and accumulator empty instantiating operation"),
             ['f']))
    ∧ (computeState .Operation OPCODE_OPEN [] = .ok (.Operation, [])
      ∧ parseLoopF 5 ['9', 'f', 'a', '2'] .FirstOperand none [] (some 1) = (.ok 9, ['a', '2'])
      ∧ (Operation.Sub 1).applyResult 9 = .error .OverflowError
      ∧ parseLoopF 6 (OPCODE_OPEN :: ['9', 'f', 'a', '2']) .Operation (some (.Sub 1)) []
          (some 1)
          = (.error
              (.IllegalState "No previous result and accumulator empty instantiating operation"),
             ['2'])) :=
  ⟨⟨rfl, rfl, by decide,
    (c4_amended_error_replaced 5 ['5', 'b', '6', 'a', 'f'] [] [] .FirstOperand .FirstOperand
        none rfl).1
      (.InvalidOperation .OverflowError) 'a' ['f'] rfl (by decide)⟩,
   ⟨rfl, rfl, rfl,
    (c4_amended_error_replaced 4 ['9', 'f', 'a', '2'] [] [] .Operation .Operation
        (some 1) rfl).2.1
      (.Sub 1) 9 .OverflowError 'a' ['2'] rfl rfl (by decide)⟩⟩



/-! ## C10: the defensive `UnexpectedSymbol` dispatch arm is unreachable -/

/-- `compute_state` only ever fails with `MalformedExpression` or
`UnbalancedParenthesis`. -/
theorem computeState_error_shape {s : ParserState} {c : Char} {acc : List Char}
    {e : ParseError} (h : computeState s c acc = .error e) :
    (∃ t, e = .MalformedExpression t) ∨ (∃ t, e = .UnbalancedParenthesis t) := by
  cases s <;> simp only [computeState] at h <;> split_ifs at h <;>
    first
      | exact Except.noConfusion h
      | exact Or.inl ⟨_, (Except.error.inj h).symm⟩
      | exact Or.inr ⟨_, (Except.error.inj h).symm⟩

theorem ok_pair_fst {s1 x : ParserState} {a1 y : List Char}
    (h : (Except.ok (x, y) : Except ParseError (ParserState × List Char)) = .ok (s1, a1)) :
    s1 = x := by
  rw [Except.ok.injEq, Prod.mk.injEq] at h
  exact h.1.symm

/-- Every successful `compute_state` transition lands in one of the five
shapes matched by the dispatch arms of `parse_internal`. -/
theorem computeState_ok_shape {s s1 : ParserState} {c : Char} {acc a1 : List Char}
    (h : computeState s c acc = .ok (s1, a1)) :
    (s1 = .FirstOperand ∧ c.isDigit = true)
      ∨ (s1 = .SecondOperand ∧ c.isDigit = true)
      ∨ (isArithCode c = true ∧ s1 = .Operation)
      ∨ c = OPCODE_OPEN
      ∨ (c = OPCODE_CLOSE ∧ s1 = .CloseParenthesis) := by
  by_cases hd : c.isDigit = true
  · cases s
    · rw [cs_digit_FO acc hd] at h
      exact Or.inl ⟨ok_pair_fst h, hd⟩
    · rw [cs_digit_Op acc hd] at h
      exact Or.inr (Or.inl ⟨ok_pair_fst h, hd⟩)
    · rw [cs_digit_SO acc hd] at h
      exact Or.inr (Or.inl ⟨ok_pair_fst h, hd⟩)
    · simp [computeState, hd] at h
  · by_cases harith : isArithCode c = true
    · cases s
      · rw [cs_arith_FO acc harith] at h
        exact Or.inr (Or.inr (Or.inl ⟨harith, ok_pair_fst h⟩))
      · by_cases hacc : acc = []
        · simp [computeState, hd, harith, hacc,
            arith_ne_open harith, arith_ne_close harith] at h
        · have hok : computeState .Operation c acc = .ok (.Operation, []) := by
            simp [computeState, hd, harith, hacc]
          rw [hok] at h
          exact Or.inr (Or.inr (Or.inl ⟨harith, ok_pair_fst h⟩))
      · rw [cs_arith_SO acc harith] at h
        exact Or.inr (Or.inr (Or.inl ⟨harith, ok_pair_fst h⟩))
      · have hok : computeState .CloseParenthesis c acc = .ok (.Operation, []) := by
          simp [computeState, hd, harith]
        rw [hok] at h
        exact Or.inr (Or.inr (Or.inl ⟨harith, ok_pair_fst h⟩))
    · by_cases hopen : c = OPCODE_OPEN
      · exact Or.inr (Or.inr (Or.inr (Or.inl hopen)))
      · by_cases hclose : c = OPCODE_CLOSE
        · subst hclose
          cases s
          · rw [cs_close_FO acc] at h
            exact Or.inr (Or.inr (Or.inr (Or.inr ⟨rfl, ok_pair_fst h⟩)))
          · rw [show computeState ParserState.Operation OPCODE_CLOSE acc
              = Except.error (ParseError.MalformedExpression (String.mk [OPCODE_CLOSE]))
              from rfl] at h
            exact Except.noConfusion h
          · rw [cs_close_SO acc] at h
            exact Or.inr (Or.inr (Or.inr (Or.inr ⟨rfl, ok_pair_fst h⟩)))
          · rw [show computeState ParserState.CloseParenthesis OPCODE_CLOSE acc
              = Except.ok (ParserState.CloseParenthesis, acc) from rfl] at h
            exact Or.inr (Or.inr (Or.inr (Or.inr ⟨rfl, ok_pair_fst h⟩)))
        · cases s <;> simp [computeState, hd, harith, hopen, hclose] at h

/-- No invocation of the symbol loop ever produces `UnexpectedSymbol`: every
symbol that passes `compute_state` is matched by one of the dispatch arms. -/
theorem loop_no_unexpected : ∀ (f : Nat) (data : List Char) (s : ParserState)
    (o : Option Operation) (a : List Char) (r : Option Nat) (sym : String)
    (st : ParserState) (oo : Option Operation),
    (parseLoopF f data s o a r).1 ≠ .error (.UnexpectedSymbol sym st oo) := by
  intro f
  induction f with
  | zero =>
    intro data s o a r sym st oo
    cases data with
    | nil => cases r <;> simp [parseLoopF]
    | cons c rest => simp [parseLoopF]
  | succ f ih =>
    intro data s o a r sym st oo
    cases data with
    | nil => cases r <;> simp [parseLoopF]
    | cons c rest =>
      rcases hcs : computeState s c a with e | ⟨s1, a1⟩
      · simp only [parseLoopF, hcs]
        rcases computeState_error_shape hcs with ⟨t, rfl⟩ | ⟨t, rfl⟩ <;> simp
      · simp only [parseLoopF, hcs]
        by_cases hg1 : s1 = ParserState.FirstOperand ∧ c.isDigit = true
        · rw [if_pos hg1]
          rcases hpu : parseUsize (a1 ++ [c]) with msg | v <;> simp only [hpu]
          · simp
          · exact ih rest s1 o (a1 ++ [c]) (some v) sym st oo
        · rw [if_neg hg1]
          by_cases hg2 : s1 = ParserState.SecondOperand ∧ c.isDigit = true
          · rw [if_pos hg2]
            rcases ho : o with _ | op <;> simp only [ho]
            · simp
            · rcases hap : op.apply (String.mk (a1 ++ [c])) with e | v <;> simp only [hap]
              · simp
              · exact ih rest s1 (some op) (a1 ++ [c]) (some v) sym st oo
          · rw [if_neg hg2]
            by_cases hg3 : isArithCode c = true ∧ s1 = ParserState.Operation
            · rw [if_pos hg3]
              by_cases ha1 : a1 = []
              · rw [if_pos ha1]
                rcases hr : r with _ | firstOperand <;> simp only [hr]
                · simp
                · rcases hfr : Operation.fromResult c firstOperand with e | op <;>
                    simp only [hfr]
                  · simp
                  · exact ih rest s1 (some op) [] (some firstOperand) sym st oo
              · rw [if_neg ha1]
                rcases hfr : Operation.from' c (String.mk a1) with e | op <;>
                  simp only [hfr]
                · simp
                · exact ih rest s1 (some op) [] r sym st oo
            · rw [if_neg hg3]
              by_cases hg4 : c = OPCODE_OPEN
              · rw [if_pos hg4]
                rcases hsub : parseLoopF f rest ParserState.FirstOperand none [] r
                  with ⟨subRes, rem⟩
                have hsub1 := ih rest ParserState.FirstOperand none [] r sym st oo
                rw [hsub] at hsub1
                rcases o with _ | op <;> rcases subRes with e | v
                · rcases rem with _ | ⟨h, t⟩ <;> dsimp only
                  · simpa using hsub1
                  · by_cases hh : isArithCode h = true
                    · rw [if_pos hh]
                      exact ih (h :: t) ParserState.FirstOperand none a1
                        (Except.error e).toOption sym st oo
                    · rw [if_neg hh]
                      simpa using hsub1
                · rcases rem with _ | ⟨h, t⟩ <;> dsimp only
                  · simp
                  · by_cases hh : isArithCode h = true
                    · rw [if_pos hh]
                      exact ih (h :: t) ParserState.FirstOperand none a1
                        (Except.ok v).toOption sym st oo
                    · rw [if_neg hh]
                      simp
                · dsimp only
                  simpa using hsub1
                · rcases rem with _ | ⟨h, t⟩ <;> dsimp only
                  · rcases (Operation.applyResult op v) with e | u <;>
                      simp [Except.mapError]
                  · by_cases hh : isArithCode h = true
                    · rw [if_pos hh]
                      exact ih (h :: t) ParserState.FirstOperand (some op) a1 _ sym st oo
                    · rw [if_neg hh]
                      rcases (Operation.applyResult op v) with e | u <;>
                        simp [Except.mapError]
              · rw [if_neg hg4]
                by_cases hg5 : c = OPCODE_CLOSE ∧ s1 = ParserState.CloseParenthesis
                · rw [if_pos hg5]
                  rcases r with _ | v <;> simp
                · rw [if_neg hg5]
                  rcases computeState_ok_shape hcs with hsh | hsh | hsh | hsh | hsh
                  · exact absurd hsh hg1
                  · exact absurd hsh hg2
                  · exact absurd hsh hg3
                  · exact absurd hsh hg4
                  · exact absurd hsh hg5

/-- The outer `while` loop never produces `UnexpectedSymbol` either. -/
theorem outer_no_unexpected : ∀ (f : Nat) (data : List Char) (r : Option Nat)
    (sym : String) (st : ParserState) (oo : Option Operation),
    parseOuterF f data r ≠ .error (.UnexpectedSymbol sym st oo) := by
  intro f
  induction f with
  | zero =>
    intro data r sym st oo
    cases data with
    | nil => cases r <;> simp [parseOuterF]
    | cons c rest => simp [parseOuterF]
  | succ f ih =>
    intro data r sym st oo
    cases data with
    | nil => cases r <;> simp [parseOuterF]
    | cons c rest =>
      rcases hpi : parseInternal (c :: rest) r with ⟨res, rem⟩
      simp only [parseOuterF, hpi]
      have hno := loop_no_unexpected ((c :: rest).length + 1) (c :: rest)
        .FirstOperand none [] r sym st oo
      rw [show parseLoopF ((c :: rest).length + 1) (c :: rest) .FirstOperand none [] r
        = parseInternal (c :: rest) r from rfl, hpi] at hno
      rcases res with e | v
      · simpa using hno
      · exact ih rem (some v) sym st oo

/-- C10: `parse` never returns the defensive `UnexpectedSymbol` error — the
fall-through dispatch arm of `parse_internal` is unreachable for every
input. -/
theorem c10_no_unexpected_symbol (s : String) (sym : String) (st : ParserState)
    (o : Option Operation) :
    parse s ≠ .error (.UnexpectedSymbol sym st o) := by
  simp only [parse, Parser.parse]
  split_ifs with h1 h2
  · simp
  · simp
  · exact outer_no_unexpected _ _ _ _ _ _

/-- Witness for C10 at a concrete input and error payload. -/
theorem c10_witness :
    parse "3a2c4" ≠ .error (.UnexpectedSymbol "a" .Operation none) :=
  c10_no_unexpected_symbol "3a2c4" "a" .Operation none


/-! ## Adequacy of the fuel supplied by `parse`

The embedding drives the recursion of `parse_internal` by a fuel parameter.
The following theorems show the fuel-exhaustion branches are unreachable for
the fuel `parse` supplies, so the embedding agrees with the Rust code on
every input: the cursor only moves forward (`parseLoopF_rem_le`), a
non-empty invocation always consumes at least its first symbol
(`parseLoopF_consumes`), and hence neither loop ever runs out
(`parse_no_fuel_exhaustion`). -/

theorem parseLoopF_rem_le : ∀ (f : Nat) (data : List Char) (s : ParserState)
    (o : Option Operation) (a : List Char) (r : Option Nat),
    (parseLoopF f data s o a r).2.length ≤ data.length := by
  intro f
  induction f with
  | zero =>
    intro data s o a r
    cases data with
    | nil => cases r <;> simp [parseLoopF]
    | cons c rest => simp [parseLoopF]
  | succ f ih =>
    intro data s o a r
    cases data with
    | nil => cases r <;> simp [parseLoopF]
    | cons c rest =>
      rcases hcs : computeState s c a with e | ⟨s1, a1⟩
      · simp [parseLoopF, hcs]
      · simp only [parseLoopF, hcs]
        by_cases hg1 : s1 = ParserState.FirstOperand ∧ c.isDigit = true
        · rw [if_pos hg1]
          rcases hpu : parseUsize (a1 ++ [c]) with msg | v <;> simp only [hpu]
          · simp
          · exact le_trans (ih rest s1 o (a1 ++ [c]) (some v)) (by simp)
        · rw [if_neg hg1]
          by_cases hg2 : s1 = ParserState.SecondOperand ∧ c.isDigit = true
          · rw [if_pos hg2]
            rcases o with _ | op
            · simp
            · rcases hap : op.apply (String.mk (a1 ++ [c])) with e | v <;> simp only [hap]
              · simp
              · exact le_trans (ih rest s1 (some op) (a1 ++ [c]) (some v)) (by simp)
          · rw [if_neg hg2]
            by_cases hg3 : isArithCode c = true ∧ s1 = ParserState.Operation
            · rw [if_pos hg3]
              by_cases ha1 : a1 = []
              · rw [if_pos ha1]
                rcases r with _ | firstOperand
                · simp
                · rcases hfr : Operation.fromResult c firstOperand with e | op <;>
                    simp only [hfr]
                  · simp
                  · exact le_trans (ih rest s1 (some op) [] (some firstOperand)) (by simp)
              · rw [if_neg ha1]
                rcases hfr : Operation.from' c (String.mk a1) with e | op <;>
                  simp only [hfr]
                · simp
                · exact le_trans (ih rest s1 (some op) [] r) (by simp)
            · rw [if_neg hg3]
              by_cases hg4 : c = OPCODE_OPEN
              · rw [if_pos hg4]
                rcases hsub : parseLoopF f rest ParserState.FirstOperand none [] r
                  with ⟨subRes, rem⟩
                have hrem := ih rest ParserState.FirstOperand none [] r
                rw [hsub] at hrem
                rcases o with _ | op <;> rcases subRes with e | v
                · rcases rem with _ | ⟨h, t⟩ <;> dsimp only
                  · simp
                  · by_cases hh : isArithCode h = true
                    · rw [if_pos hh]
                      have := ih (h :: t) ParserState.FirstOperand none a1
                        (Except.error e : Except ParseError Nat).toOption
                      simp only [List.length_cons] at this hrem ⊢
                      omega
                    · rw [if_neg hh]
                      simp only [List.length_cons] at hrem ⊢
                      omega
                · rcases rem with _ | ⟨h, t⟩ <;> dsimp only
                  · simp
                  · by_cases hh : isArithCode h = true
                    · rw [if_pos hh]
                      have := ih (h :: t) ParserState.FirstOperand none a1
                        (Except.ok v : Except ParseError Nat).toOption
                      simp only [List.length_cons] at this hrem ⊢
                      omega
                    · rw [if_neg hh]
                      simp only [List.length_cons] at hrem ⊢
                      omega
                · dsimp only
                  simp only [List.length_cons] at hrem ⊢
                  omega
                · rcases rem with _ | ⟨h, t⟩ <;> dsimp only
                  · simp
                  · by_cases hh : isArithCode h = true
                    · rw [if_pos hh]
                      have := ih (h :: t) ParserState.FirstOperand (some op) a1
                        (Except.mapError ParseError.InvalidOperation
                          (Operation.applyResult op v)).toOption
                      simp only [List.length_cons] at this hrem ⊢
                      omega
                    · rw [if_neg hh]
                      simp only [List.length_cons] at hrem ⊢
                      omega
              · rw [if_neg hg4]
                by_cases hg5 : c = OPCODE_CLOSE ∧ s1 = ParserState.CloseParenthesis
                · rw [if_pos hg5]
                  rcases r with _ | v <;> simp
                · rw [if_neg hg5]
                  simp

/-- A non-empty loop invocation with non-zero fuel consumes at least the
symbol obtained from `data.next()`. -/
theorem parseLoopF_consumes : ∀ (f : Nat) (c : Char) (rest : List Char) (s : ParserState)
    (o : Option Operation) (a : List Char) (r : Option Nat),
    (parseLoopF (f + 1) (c :: rest) s o a r).2.length ≤ rest.length := by
  intro f c rest s o a r
  rcases hcs : computeState s c a with e | ⟨s1, a1⟩
  · simp [parseLoopF, hcs]
  · simp only [parseLoopF, hcs]
    by_cases hg1 : s1 = ParserState.FirstOperand ∧ c.isDigit = true
    · rw [if_pos hg1]
      rcases hpu : parseUsize (a1 ++ [c]) with msg | v <;> simp only [hpu]
      · simp
      · exact parseLoopF_rem_le f rest s1 o (a1 ++ [c]) (some v)
    · rw [if_neg hg1]
      by_cases hg2 : s1 = ParserState.SecondOperand ∧ c.isDigit = true
      · rw [if_pos hg2]
        rcases o with _ | op
        · simp
        · rcases hap : op.apply (String.mk (a1 ++ [c])) with e | v <;> simp only [hap]
          · simp
          · exact parseLoopF_rem_le f rest s1 (some op) (a1 ++ [c]) (some v)
      · rw [if_neg hg2]
        by_cases hg3 : isArithCode c = true ∧ s1 = ParserState.Operation
        · rw [if_pos hg3]
          by_cases ha1 : a1 = []
          · rw [if_pos ha1]
            rcases r with _ | firstOperand
            · simp
            · rcases hfr : Operation.fromResult c firstOperand with e | op <;>
                simp only [hfr]
              · simp
              · exact parseLoopF_rem_le f rest s1 (some op) [] (some firstOperand)
          · rw [if_neg ha1]
            rcases hfr : Operation.from' c (String.mk a1) with e | op <;> simp only [hfr]
            · simp
            · exact parseLoopF_rem_le f rest s1 (some op) [] r
        · rw [if_neg hg3]
          by_cases hg4 : c = OPCODE_OPEN
          · rw [if_pos hg4]
            rcases hsub : parseLoopF f rest ParserState.FirstOperand none [] r
              with ⟨subRes, rem⟩
            have hrem := parseLoopF_rem_le f rest ParserState.FirstOperand none [] r
            rw [hsub] at hrem
            rcases o with _ | op <;> rcases subRes with e | v
            · rcases rem with _ | ⟨h, t⟩ <;> dsimp only
              · simp
              · by_cases hh : isArithCode h = true
                · rw [if_pos hh]
                  have := parseLoopF_rem_le f (h :: t) ParserState.FirstOperand none a1
                    (Except.error e : Except ParseError Nat).toOption
                  simp only [List.length_cons] at this hrem ⊢
                  omega
                · rw [if_neg hh]
                  simp only [List.length_cons] at hrem ⊢
                  omega
            · rcases rem with _ | ⟨h, t⟩ <;> dsimp only
              · simp
              · by_cases hh : isArithCode h = true
                · rw [if_pos hh]
                  have := parseLoopF_rem_le f (h :: t) ParserState.FirstOperand none a1
                    (Except.ok v : Except ParseError Nat).toOption
                  simp only [List.length_cons] at this hrem ⊢
                  omega
                · rw [if_neg hh]
                  simp only [List.length_cons] at hrem ⊢
                  omega
            · dsimp only
              exact hrem
            · rcases rem with _ | ⟨h, t⟩ <;> dsimp only
              · simp
              · by_cases hh : isArithCode h = true
                · rw [if_pos hh]
                  have := parseLoopF_rem_le f (h :: t) ParserState.FirstOperand (some op) a1
                    (Except.mapError ParseError.InvalidOperation
                      (Operation.applyResult op v)).toOption
                  simp only [List.length_cons] at this hrem ⊢
                  omega
                · rw [if_neg hh]
                  simp only [List.length_cons] at hrem ⊢
                  omega
          · rw [if_neg hg4]
            by_cases hg5 : c = OPCODE_CLOSE ∧ s1 = ParserState.CloseParenthesis
            · rw [if_pos hg5]
            · rw [if_neg hg5]

/-- With fuel exceeding the number of remaining symbols — as supplied by
`parse` and maintained across all recursive calls — the symbol loop never
reaches its fuel-exhaustion branch. -/
theorem loop_no_fuel_marker : ∀ (f : Nat) (data : List Char) (s : ParserState)
    (o : Option Operation) (a : List Char) (r : Option Nat),
    data.length < f →
    (parseLoopF f data s o a r).1
      ≠ .error (.IllegalState "unreachable: insufficient fuel") := by
  intro f
  induction f with
  | zero =>
    intro data s o a r hf
    exact absurd hf (by omega)
  | succ f ih =>
    intro data s o a r hf
    cases data with
    | nil => cases r <;> simp [parseLoopF]
    | cons c rest =>
      have hrest : rest.length < f := by
        simp only [List.length_cons] at hf
        omega
      rcases hcs : computeState s c a with e | ⟨s1, a1⟩
      · simp only [parseLoopF, hcs]
        rcases computeState_error_shape hcs with ⟨t, rfl⟩ | ⟨t, rfl⟩ <;> simp
      · simp only [parseLoopF, hcs]
        by_cases hg1 : s1 = ParserState.FirstOperand ∧ c.isDigit = true
        · rw [if_pos hg1]
          rcases hpu : parseUsize (a1 ++ [c]) with msg | v <;> simp only [hpu]
          · simp
          · exact ih rest s1 o (a1 ++ [c]) (some v) hrest
        · rw [if_neg hg1]
          by_cases hg2 : s1 = ParserState.SecondOperand ∧ c.isDigit = true
          · rw [if_pos hg2]
            rcases o with _ | op
            · simp
            · rcases hap : op.apply (String.mk (a1 ++ [c])) with e | v <;> simp only [hap]
              · simp
              · exact ih rest s1 (some op) (a1 ++ [c]) (some v) hrest
          · rw [if_neg hg2]
            by_cases hg3 : isArithCode c = true ∧ s1 = ParserState.Operation
            · rw [if_pos hg3]
              by_cases ha1 : a1 = []
              · rw [if_pos ha1]
                rcases r with _ | firstOperand
                · simp
                · rcases hfr : Operation.fromResult c firstOperand with e | op <;>
                    simp only [hfr]
                  · simp
                  · exact ih rest s1 (some op) [] (some firstOperand) hrest
              · rw [if_neg ha1]
                rcases hfr : Operation.from' c (String.mk a1) with e | op <;>
                  simp only [hfr]
                · simp
                · exact ih rest s1 (some op) [] r hrest
            · rw [if_neg hg3]
              by_cases hg4 : c = OPCODE_OPEN
              · rw [if_pos hg4]
                rcases hsub : parseLoopF f rest ParserState.FirstOperand none [] r
                  with ⟨subRes, rem⟩
                have hsub1 := ih rest ParserState.FirstOperand none [] r hrest
                rw [hsub] at hsub1
                have hrem := parseLoopF_rem_le f rest ParserState.FirstOperand none [] r
                rw [hsub] at hrem
                rcases o with _ | op <;> rcases subRes with e | v
                · rcases rem with _ | ⟨h, t⟩ <;> dsimp only
                  · simpa using hsub1
                  · by_cases hh : isArithCode h = true
                    · rw [if_pos hh]
                      refine ih (h :: t) ParserState.FirstOperand none a1
                        (Except.error e).toOption ?_
                      simp only [List.length_cons] at hrem ⊢
                      omega
                    · rw [if_neg hh]
                      simpa using hsub1
                · rcases rem with _ | ⟨h, t⟩ <;> dsimp only
                  · simp
                  · by_cases hh : isArithCode h = true
                    · rw [if_pos hh]
                      refine ih (h :: t) ParserState.FirstOperand none a1
                        (Except.ok v).toOption ?_
                      simp only [List.length_cons] at hrem ⊢
                      omega
                    · rw [if_neg hh]
                      simp
                · dsimp only
                  simpa using hsub1
                · rcases rem with _ | ⟨h, t⟩ <;> dsimp only
                  · rcases (Operation.applyResult op v) with e | u <;>
                      simp [Except.mapError]
                  · by_cases hh : isArithCode h = true
                    · rw [if_pos hh]
                      refine ih (h :: t) ParserState.FirstOperand (some op) a1 _ ?_
                      simp only [List.length_cons] at hrem ⊢
                      omega
                    · rw [if_neg hh]
                      rcases (Operation.applyResult op v) with e | u <;>
                        simp [Except.mapError]
              · rw [if_neg hg4]
                by_cases hg5 : c = OPCODE_CLOSE ∧ s1 = ParserState.CloseParenthesis
                · rw [if_pos hg5]
                  rcases r with _ | v <;> simp
                · rw [if_neg hg5]
                  simp

/-- The outer loop's fuel-exhaustion branch is equally unreachable. -/
theorem outer_no_fuel_marker : ∀ (f : Nat) (data : List Char) (r : Option Nat),
    data.length < f →
    parseOuterF f data r ≠ .error (.IllegalState "unreachable: insufficient fuel") := by
  intro f
  induction f with
  | zero =>
    intro data r hf
    exact absurd hf (by omega)
  | succ f ih =>
    intro data r hf
    cases data with
    | nil => cases r <;> simp [parseOuterF]
    | cons c rest =>
      have hcons : (parseInternal (c :: rest) r).2.length ≤ rest.length := by
        rw [show parseInternal (c :: rest) r
          = parseLoopF (rest.length + 1 + 1) (c :: rest) .FirstOperand none [] r by
          simp [parseInternal]]
        exact parseLoopF_consumes (rest.length + 1) c rest .FirstOperand none [] r
      have hno := loop_no_fuel_marker ((c :: rest).length + 1) (c :: rest)
        .FirstOperand none [] r (by omega)
      rw [show parseLoopF ((c :: rest).length + 1) (c :: rest) .FirstOperand none [] r
        = parseInternal (c :: rest) r from rfl] at hno
      rcases hpi : parseInternal (c :: rest) r with ⟨res, rem⟩
      rw [hpi] at hno hcons
      simp only [parseOuterF, hpi]
      rcases res with e | v
      · simpa using hno
      · refine ih rem (some v) ?_
        simp only [List.length_cons] at hf
        simp only at hcons
        omega

/-- `parse` supplies `length + 1` fuel, which the two theorems above show is
always sufficient: the embedding never reports fuel exhaustion, on any
input. -/
theorem parse_no_fuel_exhaustion (s : String) :
    parse s ≠ .error (.IllegalState "unreachable: insufficient fuel") := by
  simp only [parse, Parser.parse]
  split_ifs with h1 h2
  · simp
  · simp
  · exact outer_no_fuel_marker _ _ _ (by omega)


end ArithParser
